import Mathlib

/-!
# Verification of the syscall summarizer of `shh`

Shallow embedding of `src/summarize.rs` (the behavioral summarizer, its set
algebra and path resolution) together with the parts of the `strace` and
`systemd` modules it consumes. The `strace` expression model and the
`systemd` socket family/protocol parsing are not part of the provided
sources; those definitions are modelled from the specification and are
marked as such in their doc comments. Everything else is translated
directly from `src/summarize.rs`.

Conventions:
* byte strings (paths, buffers, fd metadata) are modelled as `String`;
* `u32` pids are `Nat`, `i128` literals and return values are `Int`;
* `NetworkPort` (a `NonZeroU16`) is modelled as `Nat` with the explicit
  bounds 1 and 65535; the `ValueCounted` impl for it is reflected in the
  constants `portMinValue`, `portMaxValue`, `portValueCount`;
* Rust panics (`unwrap`, `unreachable!`, `todo!`) are modelled as `Option`
  results (`none`) or as the `SummErr.panicked` error of the summarizer;
* filesystem canonicalization (`Path::canonicalize`, an I/O operation) is
  a parameter `canon : String → Option String` of the summarizer, `none`
  standing for the error fallback which returns the path unchanged.
-/

/-! ## Character-list helpers (string primitives used by the embedding) -/

/-- `pre` is a prefix of `l` (used for `str::starts_with`). -/
def charsPrefixB : List Char → List Char → Bool
  | [], _ => true
  | _ :: _, [] => false
  | p :: ps, c :: cs => p == c && charsPrefixB ps cs

/-- `suf` is a suffix of `l` (used for `str::ends_with`). -/
def charsSuffixB (suf l : List Char) : Bool :=
  charsPrefixB suf.reverse l.reverse

/-- `str::starts_with` on strings. -/
def strStartsWith (s pre : String) : Bool :=
  charsPrefixB pre.data s.data

/-- `str::ends_with` on strings. -/
def strEndsWith (s suf : String) : Bool :=
  charsSuffixB suf.data s.data

/-! ## Paths

Byte-string paths. On Unix, `Path::is_relative` is `true` exactly when the
path does not start with `/`. `PathBuf::join` of a base and a relative
path appends with a separator. -/

/-- `Path::is_absolute` on Unix: starts with `/`. -/
def isAbsolutePath (s : String) : Bool :=
  match s.data with
  | c :: _ => c == '/'
  | [] => false

/-- `Path::is_relative` on Unix. -/
def isRelativePath (s : String) : Bool :=
  !isAbsolutePath s

/-- `PathBuf::join` of a base path and a further (relative) path: append,
inserting a `/` separator unless the base already ends with one. An empty
base yields the relative path unchanged. -/
def pathJoin (base rel : String) : String :=
  if base.data = [] then rel
  else if base.data.getLast? = some '/' then String.mk (base.data ++ rel.data)
  else String.mk (base.data ++ '/' :: rel.data)

/-! ## Adjacent deduplication

`Vec::dedup`: removes consecutive repeated elements, keeping the first of
each run. -/

/-- Tail worker of `dedupAdj`: `prev` is the last kept element. -/
def dedupAdjGo {α : Type} [DecidableEq α] (prev : α) : List α → List α
  | [] => []
  | b :: rest => if prev = b then dedupAdjGo prev rest else b :: dedupAdjGo b rest

/-- `Vec::dedup`: collapse runs of adjacent equal elements to their first
element. -/
def dedupAdj {α : Type} [DecidableEq α] : List α → List α
  | [] => []
  | a :: rest => a :: dedupAdjGo a rest

/-! ## The strace expression model

Modelled from the spec: the `strace` module is not among the provided
sources. Spec §3 "Expression (tagged sum)" and the line grammar of §4.1
(`INTEGER := NAMED_CONST | literal | INTEGER '|' INTEGER |
INTEGER '<<' INTEGER | INTEGER '*' INTEGER | MACRO`, binary operators)
define the shape below. -/

/-- Modelled from the spec: the value of an integer expression — literal
integer, named constant, bitwise-or, shift-left, multiplication or macro
call (spec §3, grammar §4.1; operators are binary per the grammar). -/
inductive IntegerExpressionValue : Type where
  | NamedConst (name : String)
  | Literal (value : Int)
  | BinaryOr (lhs rhs : IntegerExpressionValue)
  | LeftShift (lhs rhs : IntegerExpressionValue)
  | Multiplication (lhs rhs : IntegerExpressionValue)
  | MacroCall (name : String) (args : List IntegerExpressionValue)

/-- Modelled from the spec: flag-set test on integer values
(`is_flag_set(NAME)`, spec §3): the flag is the named constant itself or a
named component of a bitwise-or. -/
def IntegerExpressionValue.isFlagSet (v : IntegerExpressionValue) (flag : String) : Bool :=
  match v with
  | .NamedConst n => n == flag
  | .BinaryOr l r => l.isFlagSet flag || r.isFlagSet flag
  | _ => false

/-- Modelled from the spec: enumeration of the named flag components of an
integer value (`flags()`, spec §3). -/
def IntegerExpressionValue.flagsOf (v : IntegerExpressionValue) : List String :=
  match v with
  | .NamedConst n => [n]
  | .BinaryOr l r => l.flagsOf ++ r.flagsOf
  | _ => []

/-- Modelled from the spec: buffer tag distinguishing opaque buffers from
Unix-domain abstract addresses (spec §3). -/
inductive BufferType : Type where
  | Unknown
  | AbstractPath

/-- Modelled from the spec: an integer expression with the optional byte
string metadata attached by the tracer decoder (the path carried by a
directory or socket fd, spec §3/§4.1). -/
structure IntegerExpression : Type where
  value : IntegerExpressionValue
  metadata : Option String

/-- Modelled from the spec: a buffer expression — raw bytes plus kind tag
(spec §3). -/
structure BufferExpression : Type where
  value : String
  type_ : BufferType

/-- Modelled from the spec: syscall argument expressions (spec §3): integer,
buffer, struct (field-name map), array, macro call. -/
inductive Expression : Type where
  | Integer (ie : IntegerExpression)
  | Buffer (be : BufferExpression)
  | Struct (members : List (String × Expression))
  | Array (elements : List Expression)
  | Macro (name : String) (args : List Expression)

/-- Modelled from the spec: `Expression::metadata` — the tracer metadata of
an integer expression, `None` for every other variant (spec §3: metadata is
attached to integer expressions). -/
def Expression.metadataOf : Expression → Option String
  | .Integer ie => ie.metadata
  | _ => none

/-- First member of a struct whose expression matches the lookup key
(`HashMap::get`, member insertion order irrelevant per spec §3; modelled as
first match in the association list). -/
def structGet : List (String × Expression) → String → Option Expression
  | [], _ => none
  | (k, v) :: rest, key => if k = key then some v else structGet rest key

/-- First struct member whose field name ends with `_port`
(`addr.iter().find_map(|(k, v)| k.ends_with("_port").then_some(v))`). -/
def findPortMember : List (String × Expression) → Option Expression
  | [] => none
  | (k, v) :: rest => if strEndsWith k "_port" then some v else findPortMember rest

/-- Modelled from the spec: a parsed syscall record
`{ pid, rel_ts, name, args, ret_val }` (spec §3). The `rel_ts` float is
never read by the summarizer and floating point is not modelled. -/
structure Syscall : Type where
  pid : Nat
  name : String
  args : List Expression
  retVal : Int

/-! ## systemd socket families and protocols

Modelled from the spec: the `systemd` module is not among the provided
sources. -/

/-- Modelled from the spec: a socket family such as `AF_INET` or `AF_UNIX`
(spec §3), kept as its strace name. -/
abbrev SocketFamily := String

/-- Modelled from the spec: parsing a socket family name; the strace names
all carry the `AF_` prefix, anything else is rejected (`FromStr`, used by
the summarizer's `af.parse()`). -/
def parseSocketFamily (s : String) : Option SocketFamily :=
  if strStartsWith s "AF_" then some s else none

/-- Modelled from the spec: socket protocols; scenario §8(c) maps
`SOCK_STREAM` to TCP, `SOCK_DGRAM` is the datagram counterpart. -/
inductive SocketProtocol : Type where
  | Tcp
  | Udp
deriving DecidableEq

/-- Modelled from the spec: parsing a socket protocol from the `SOCK_*`
flag of the `socket` syscall (spec §4.3 Socket handler, scenario §8(c)). -/
def SocketProtocol.parse (s : String) : Option SocketProtocol :=
  if s = "SOCK_STREAM" then some .Tcp
  else if s = "SOCK_DGRAM" then some .Udp
  else none

/-! ## The set algebra (`SetSpecifier`, `CountableSetSpecifier`)

Translated from `src/summarize.rs`. -/

/-- Quantify something that is done or denied (`SetSpecifier<T>`). -/
inductive SetSpecifier (T : Type) : Type where
  | None
  | One (e : T)
  | Some (es : List T)
  | All
deriving DecidableEq

namespace SetSpecifier

/-- `SetSpecifier::contains_one`. -/
def containsOne {T : Type} [DecidableEq T] : SetSpecifier T → T → Bool
  | .None, _ => false
  | .One e, needle => e == needle
  | .Some es, needle => decide (needle ∈ es)
  | .All, _ => true

/-- `SetSpecifier::intersects`. -/
def intersects {T : Type} [DecidableEq T] : SetSpecifier T → SetSpecifier T → Bool
  | .None, _ => false
  | .One e, other => other.containsOne e
  | .Some es, other => es.any (fun e => other.containsOne e)
  | .All, other =>
    match other with
    | .None => false
    | _ => true

/-- `SetSpecifier::elements`; `All` hits `unimplemented!()`, modelled as
`none`. -/
def elements {T : Type} : SetSpecifier T → Option (List T)
  | .None => some []
  | .One e => some [e]
  | .Some es => some es
  | .All => none

end SetSpecifier

/-- Quantify something that is done or denied, over a finite countable
universe (`CountableSetSpecifier<T>`); `Some` and `AllExcept` elements must
be ordered. -/
inductive CountableSetSpecifier (T : Type) : Type where
  | None
  | One (e : T)
  | Some (es : List T)
  | AllExcept (es : List T)
  | All
deriving DecidableEq

/-! The `ValueCounted` impl for `NetworkPort` (a `NonZeroU16`): ports are
modelled as `Nat` with explicit bounds. -/

/-- `NetworkPort::min_value()` = 1. -/
def portMinValue : Nat := 1

/-- `NetworkPort::max_value()` = `u16::MAX` = 65535. -/
def portMaxValue : Nat := 65535

/-- `NetworkPort::value_count()` = `u16::MAX - u16::MIN` = 65535 (port 0 is
excluded). -/
def portValueCount : Nat := 65535

/-- A `Nat` is a valid `NetworkPort` value (`NonZeroU16`). -/
def portOk (p : Nat) : Prop := 1 ≤ p ∧ p ≤ 65535

instance (p : Nat) : Decidable (portOk p) := by
  unfold portOk; infer_instance

/-- `RangeInclusive<NetworkPort>`: an inclusive interval of ports. The Rust
field `end` is a Lean keyword, hence `stop`. -/
structure PortRange : Type where
  start : Nat
  stop : Nat
deriving DecidableEq

/-- `RangeInclusive::is_empty` for discrete ordered types: empty iff
`stop < start`. -/
def PortRange.isEmptyRange (r : PortRange) : Bool := decide (r.stop < r.start)

/-- A port is covered by one of the intervals of a list. -/
def coveredBy (rs : List PortRange) (p : Nat) : Prop :=
  ∃ r ∈ rs, r.start ≤ p ∧ p ≤ r.stop

instance (rs : List PortRange) (p : Nat) : Decidable (coveredBy rs p) := by
  unfold coveredBy; infer_instance

namespace CountableSetSpecifier

/-- `CountableSetSpecifier::contains_one` (at `NetworkPort`). -/
def containsOne : CountableSetSpecifier Nat → Nat → Bool
  | .None, _ => false
  | .One e, needle => e == needle
  | .Some es, needle => decide (needle ∈ es)
  | .AllExcept es, needle => !decide (needle ∈ es)
  | .All, _ => true

/-- `CountableSetSpecifier::intersects` (at `NetworkPort`). -/
def intersects : CountableSetSpecifier Nat → CountableSetSpecifier Nat → Bool
  | .None, _ => false
  | .One e, other => other.containsOne e
  | .Some es, other => es.any (fun e => other.containsOne e)
  | .AllExcept excs, other =>
    match other with
    | .None => false
    | .One e => !decide (e ∈ excs)
    | .Some es => es.any (fun e => !decide (e ∈ excs))
    | .AllExcept otherExcs => decide (excs ≠ otherExcs)
    | .All => decide (excs.length < portValueCount)
  | .All, other =>
    match other with
    | .None => false
    | _ => true

/-- Insertion of `x` into `excs` at the index `Vec::insert` receives from
`binary_search`'s `Err`: on a sorted list that index is the number of
elements smaller than `x`, so the result is
`takeWhile (< x) ++ x :: dropWhile (< x)`. -/
def insertSortedAt (excs : List Nat) (x : Nat) : List Nat :=
  excs.takeWhile (fun e => e < x) ++ x :: excs.dropWhile (fun e => e < x)

/-- `CountableSetSpecifier::remove` (at `NetworkPort`). The element to
remove must be in the set; panic paths (`unreachable!()` on `None`, the
`unwrap` of `position` when the element is absent from a `Some` list, the
`unwrap_err` of `binary_search` when it is present in an `AllExcept` list)
are modelled as `none`. -/
def remove : CountableSetSpecifier Nat → Nat → Option (CountableSetSpecifier Nat)
  | .None, _ => none
  | .One _, _ => some .None
  | .Some es, toRm =>
    if decide (toRm ∈ es) then some (.Some (es.erase toRm)) else none
  | .AllExcept excs, toRm =>
    if decide (toRm ∈ excs) then none
    else some (.AllExcept (insertSortedAt excs toRm))
  | .All, toRm => some (.AllExcept [toRm])

/-- Loop of `CountableSetSpecifier::ranges` for the `AllExcept` variant:
walks the exclusions, carrying the optional start of the next interval, and
pushes each non-empty interval. -/
def raeLoop (start : Option Nat) : List Nat → List PortRange
  | [] =>
    match start with
    | some s => if s ≤ portMaxValue then [⟨s, portMaxValue⟩] else []
    | none => []
  | exc :: rest =>
    let pre : List PortRange :=
      if exc ≠ portMinValue then
        let curStart := start.getD portMinValue
        let curEnd := exc - 1
        if curStart ≤ curEnd then [⟨curStart, curEnd⟩] else []
      else []
    pre ++ raeLoop (if exc = portMaxValue then none else some (exc + 1)) rest

/-- `CountableSetSpecifier::ranges` (at `NetworkPort`). -/
def ranges : CountableSetSpecifier Nat → List PortRange
  | .None => []
  | .One e => [⟨e, e⟩]
  | .Some es => es.map (fun e => ⟨e, e⟩)
  | .AllExcept excs => raeLoop Option.none excs
  | .All => [⟨portMinValue, portMaxValue⟩]

end CountableSetSpecifier

/-! ## Network activity and program actions (`src/summarize.rs`) -/

/-- Socket activity kind (`NetworkActivityKind`). -/
inductive NetworkActivityKind : Type where
  | SocketCreation
  | Bind
deriving DecidableEq

/-- Network (socket) activity (`NetworkActivity`). -/
structure NetworkActivity : Type where
  af : SetSpecifier SocketFamily
  proto : SetSpecifier SocketProtocol
  kind : SetSpecifier NetworkActivityKind
  local_port : CountableSetSpecifier Nat
deriving DecidableEq

/-- A high level program runtime action (`ProgramAction`). The `Syscalls`
variant carries a `HashSet<String>` in the source; here it is the list of
observed names in first-occurrence order, compared for set membership in
the theorems. -/
inductive ProgramAction : Type where
  | Read (path : String)
  | Write (path : String)
  | Create (path : String)
  | NetworkActivity (na : NetworkActivity)
  | WriteExecuteMemoryMapping
  | SetRealtimeScheduler
  | Wakeup
  | MknodSpecial
  | SetAlarm
  | Syscalls (names : List String)
deriving DecidableEq

/-- Errors of the summarizer: `bail` for the `anyhow` error paths,
`panicked` for Rust panics (`todo!()` and failing `unwrap`s). -/
inductive SummErr : Type where
  | bail (msg : String)
  | panicked (msg : String)
deriving DecidableEq

/-! ## The syscall dispatch table -/

/-- Meta structure grouping syscalls with similar summary handling and
storing argument indexes (`SyscallInfo`). -/
inductive SyscallInfo : Type where
  | Mknod (modeIdx : Nat)
  | Mmap (protIdx : Nat)
  | Network (sockaddrIdx : Nat)
  | Open (relfdIdx : Option Nat) (pathIdx : Nat) (flagsIdx : Nat)
  | Rename (relfdSrcIdx : Option Nat) (pathSrcIdx : Nat)
      (relfdDstIdx : Option Nat) (pathDstIdx : Nat) (flagsIdx : Option Nat)
  | SetScheduler
  | Socket
  | StatFd (fdIdx : Nat)
  | StatPath (relfdIdx : Option Nat) (pathIdx : Nat)

/-- The static `SYSCALL_MAP` dispatch table. -/
def syscallMap (name : String) : Option SyscallInfo :=
  match name with
  | "mknod" => some (.Mknod 1)
  | "mknodat" => some (.Mknod 2)
  | "mmap" => some (.Mmap 2)
  | "mmap2" => some (.Mmap 2)
  | "shmat" => some (.Mmap 2)
  | "mprotect" => some (.Mmap 2)
  | "pkey_mprotect" => some (.Mmap 2)
  | "connect" => some (.Network 1)
  | "bind" => some (.Network 1)
  | "recvfrom" => some (.Network 4)
  | "sendto" => some (.Network 4)
  | "open" => some (.Open Option.none 0 1)
  | "openat" => some (.Open (some 0) 1 2)
  | "rename" => some (.Rename Option.none 0 Option.none 1 Option.none)
  | "renameat" => some (.Rename (some 0) 1 (some 2) 3 Option.none)
  | "renameat2" => some (.Rename (some 0) 1 (some 2) 3 (some 4))
  | "sched_setscheduler" => some .SetScheduler
  | "socket" => some .Socket
  | "fstat" => some (.StatFd 0)
  | "getdents" => some (.StatFd 0)
  | "stat" => some (.StatPath Option.none 0)
  | "lstat" => some (.StatPath Option.none 0)
  | "newfstatat" => some (.StatPath (some 0) 1)
  | _ => none

/-! ## Path resolution -/

/-- Lower-case letter test (`[a-z]`). -/
def isLowerAlpha (c : Char) : Bool := 'a' ≤ c && c ≤ 'z'

/-- `[0-9a-z]` test. -/
def isLowerOrDigit (c : Char) : Bool :=
  ('0' ≤ c && c ≤ '9') || ('a' ≤ c && c ≤ 'z')

/-- `is_fd_pseudo_path`: matches `FD_PSEUDO_PATH_REGEX`, the anchored
regex `[a-z]+:\x5b[0-9a-z]+\x5d/?` (e.g. `socket:` followed by a
bracketed inode and an optional trailing slash). -/
def isFdPseudoPath (s : String) : Bool :=
  let cs := s.data
  let p1 := cs.takeWhile isLowerAlpha
  let rest := cs.dropWhile isLowerAlpha
  !p1.isEmpty &&
    match rest with
    | ':' :: '[' :: rest2 =>
      let p2 := rest2.takeWhile isLowerOrDigit
      let rest3 := rest2.dropWhile isLowerOrDigit
      !p2.isEmpty && (decide (rest3 = [']']) || decide (rest3 = [']', '/']))
    | _ => false

/-- The relative-path handling of `resolve_path`, before canonicalization:
an absolute path is kept; a relative path is joined onto the metadata of
the `relfd_idx` argument unless that metadata is missing or a pseudo-fd
path. -/
def resolvePathJoined (path : String) (relfdIdx : Option Nat) (sc : Syscall) :
    Option String :=
  if isRelativePath path then
    match (relfdIdx.bind (fun idx => sc.args.get? idx)).bind Expression.metadataOf with
    | some m => if isFdPseudoPath m then none else some (pathJoin m path)
    | none => none
  else some path

/-- `resolve_path`: resolve a relative path via the metadata of the
`relfd_idx` argument if possible, and normalize it. `canon` is the
filesystem canonicalization step (`Path::canonicalize`), whose failure
(`none`) falls back to the unmodified path. -/
def resolvePath (canon : String → Option String) (path : String)
    (relfdIdx : Option Nat) (sc : Syscall) : Option String :=
  (resolvePathJoined path relfdIdx sc).map (fun p => (canon p).getD p)

/-- `socket_address_uds_path`: extract the path of a socket address
structure if it is a non-abstract one. -/
def socketAddressUdsPath (canon : String → Option String)
    (members : List (String × Expression)) (sc : Syscall) : Option String :=
  match structGet members "sun_path" with
  | some (.Buffer ⟨b, .Unknown⟩) => resolvePath canon b Option.none sc
  | _ => none

/-! ## Summarizer state and handler arms -/

/-- The per-process fd → protocol table (`known_sockets_proto`), newest
entry first so that a later `socket` overwrites an earlier one. -/
abbrev SocketMap := List ((Nat × Int) × SocketProtocol)

/-- Lookup in the fd → protocol table (`HashMap::get`). -/
def lookupProto : SocketMap → Nat × Int → Option SocketProtocol
  | [], _ => none
  | (k, v) :: rest, key => if k = key then some v else lookupProto rest key

/-- Record an observed syscall name (`stats.entry(...)`): the key set of
the stats map, in first-occurrence order; the per-name counts are only
used for logging. -/
def insertName (names : List String) (n : String) : List String :=
  if n ∈ names then names else names ++ [n]

/-- `SyscallInfo::Open` handler arm. -/
def openArm (canon : String → Option String) (socks : SocketMap) (sc : Syscall)
    (relfdIdx : Option Nat) (pathIdx flagsIdx : Nat) :
    Except SummErr (SocketMap × List ProgramAction) :=
  match sc.args.get? pathIdx, sc.args.get? flagsIdx with
  | some (.Buffer ⟨b, .Unknown⟩), some (.Integer ⟨e, _⟩) =>
    match resolvePath canon b relfdIdx sc with
    | none => .ok (socks, [])
    | some p =>
      .ok (socks,
        (if e.isFlagSet "O_CREAT" then [.Create p] else [])
        ++ (if e.isFlagSet "O_WRONLY" || e.isFlagSet "O_RDWR" || e.isFlagSet "O_TRUNC"
            then [.Write p] else [])
        ++ (if !e.isFlagSet "O_WRONLY" then [.Read p] else []))
  | _, _ => .error (.bail ("Unexpected args for " ++ sc.name))

/-- The `exchange` computation of the `SyscallInfo::Rename` handler arm:
read the `RENAME_EXCHANGE` flag from the flags argument when the syscall
has one (`renameat2`), else `false`. -/
def renameExchange (sc : Syscall) (flagsIdx : Option Nat) : Except SummErr Bool :=
  match flagsIdx with
  | some fi =>
    match sc.args.get? fi with
    | some (.Integer ⟨flags, _⟩) => .ok (flags.isFlagSet "RENAME_EXCHANGE")
    | _ => .error (.bail ("Unexpected args for " ++ sc.name))
  | none => .ok false

/-- `SyscallInfo::Rename` handler arm. -/
def renameArm (canon : String → Option String) (socks : SocketMap) (sc : Syscall)
    (relfdSrcIdx : Option Nat) (pathSrcIdx : Nat)
    (relfdDstIdx : Option Nat) (pathDstIdx : Nat) (flagsIdx : Option Nat) :
    Except SummErr (SocketMap × List ProgramAction) :=
  match sc.args.get? pathSrcIdx, sc.args.get? pathDstIdx with
  | some (.Buffer ⟨b1, .Unknown⟩), some (.Buffer ⟨b2, .Unknown⟩) =>
    match resolvePath canon b1 relfdSrcIdx sc, resolvePath canon b2 relfdDstIdx sc with
    | some pathSrc, some pathDst =>
      match renameExchange sc flagsIdx with
      | .error e => .error e
      | .ok exchange =>
        .ok (socks,
          [.Read pathSrc, .Write pathSrc]
          ++ (if exchange then [.Read pathDst] else [.Create pathDst])
          ++ [.Write pathDst])
    | _, _ => .ok (socks, [])
  | _, _ => .error (.bail ("Unexpected args for " ++ sc.name))

/-- `SyscallInfo::StatFd` handler arm. -/
def statFdArm (canon : String → Option String) (socks : SocketMap) (sc : Syscall)
    (fdIdx : Nat) : Except SummErr (SocketMap × List ProgramAction) :=
  match (sc.args.get? fdIdx).bind Expression.metadataOf with
  | none => .error (.bail ("Unexpected args for " ++ sc.name))
  | some m =>
    match resolvePath canon m Option.none sc with
    | none => .ok (socks, [])
    | some p => .ok (socks, [.Read p])

/-- `SyscallInfo::StatPath` handler arm. -/
def statPathArm (canon : String → Option String) (socks : SocketMap) (sc : Syscall)
    (relfdIdx : Option Nat) (pathIdx : Nat) :
    Except SummErr (SocketMap × List ProgramAction) :=
  match sc.args.get? pathIdx with
  | some (.Buffer ⟨b, .Unknown⟩) =>
    match resolvePath canon b relfdIdx sc with
    | none => .ok (socks, [])
    | some p => .ok (socks, [.Read p])
  | _ => .error (.bail ("Unexpected args for " ++ sc.name))

/-- The Unix-domain part of the `SyscallInfo::Network` handler arm: a
`Read` of the socket path when the family is `AF_UNIX` and the address is
a non-abstract `sun_path`. -/
def networkUdsActions (canon : String → Option String) (af : String)
    (members : List (String × Expression)) (sc : Syscall) : List ProgramAction :=
  if af = "AF_UNIX" then
    match socketAddressUdsPath canon members sc with
    | some p => [.Read p]
    | none => []
  else []

/-- The `local_port` extraction of the `bind` handling: the first member
whose name ends with `_port`, through an `htons` macro around an integer
literal. The `todo!()` on a non-literal `htons` argument and the
`NonZeroU16` `unwrap` failure on port 0 (after the `as u16` truncating
cast) are the `panicked` paths. -/
def bindLocalPort (members : List (String × Expression)) :
    Except SummErr (CountableSetSpecifier Nat) :=
  match findPortMember members with
  | some (.Macro mname margs) =>
    if mname = "htons" then
      match margs.head? with
      | some (.Integer ⟨.Literal portVal, _⟩) =>
        let pv : Nat := (portVal % 65536).toNat
        if pv = 0 then .error (.panicked "NonZeroU16 conversion of port 0")
        else .ok (.One pv)
      | _ => .error (.panicked "not yet implemented")
    else .ok .None
  | _ => .ok .None

/-- The `bind`-specific part of the `SyscallInfo::Network` handler arm:
extract the fd, parse the family, extract the local port, and emit the
`Bind` activity when the fd was recorded by a previous `socket`. -/
def networkBind (socks : SocketMap) (sc : Syscall) (af : String)
    (members : List (String × Expression)) (udsActs : List ProgramAction) :
    Except SummErr (SocketMap × List ProgramAction) :=
  match sc.args.head? with
  | some (.Integer ⟨.Literal fd, _⟩) =>
    match parseSocketFamily af with
    | none => .error (.bail ("Unable to parse socket family " ++ af))
    | some af' =>
      match bindLocalPort members with
      | .error e => .error e
      | .ok localPort =>
        match lookupProto socks (sc.pid, fd) with
        | some proto =>
          .ok (socks, udsActs
            ++ [.NetworkActivity ⟨.One af', .One proto, .One .Bind, localPort⟩])
        | none => .ok (socks, udsActs)
  | _ => .error (.bail ("Unexpected args for " ++ sc.name))

/-- `SyscallInfo::Network` handler arm (`connect`, `bind`, `recvfrom`,
`sendto`): Unix socket path read, plus `NetworkActivity` emission for
`bind` when the fd was recorded by a previous `socket`. A missing or
non-struct sockaddr argument is skipped (it can be NULL, e.g. for
`AF_NETLINK` sockets). -/
def networkArm (canon : String → Option String) (socks : SocketMap) (sc : Syscall)
    (sockaddrIdx : Nat) : Except SummErr (SocketMap × List ProgramAction) :=
  match sc.args.get? sockaddrIdx with
  | some (.Struct members) =>
    match structGet members "sa_family" with
    | some (.Integer ⟨.NamedConst af, _⟩) =>
      if sc.name = "bind" then
        networkBind socks sc af members (networkUdsActions canon af members sc)
      else .ok (socks, networkUdsActions canon af members sc)
    | _ => .error (.bail ("Unexpected args for " ++ sc.name))
  | _ => .ok (socks, [])

/-- `SyscallInfo::SetScheduler` handler arm. -/
def setSchedulerArm (socks : SocketMap) (sc : Syscall) :
    Except SummErr (SocketMap × List ProgramAction) :=
  match sc.args.get? 1 with
  | some (.Integer ⟨policy, _⟩) =>
    if policy.isFlagSet "SCHED_FIFO" || policy.isFlagSet "SCHED_RR"
    then .ok (socks, [.SetRealtimeScheduler])
    else .ok (socks, [])
  | _ => .error (.bail ("Unexpected args for " ++ sc.name))

/-- `SyscallInfo::Socket` handler arm: parse family and protocol, record
`(pid, ret_val) → proto`, and emit the socket-creation activity. -/
def socketArm (socks : SocketMap) (sc : Syscall) :
    Except SummErr (SocketMap × List ProgramAction) :=
  match sc.args.head? with
  | some (.Integer ⟨.NamedConst af, _⟩) =>
    match parseSocketFamily af with
    | none => .error (.bail ("Unable to parse socket family " ++ af))
    | some af' =>
      match sc.args.get? 1 with
      | some (.Integer ⟨value, _⟩) =>
        match value.flagsOf.find? (fun f => strStartsWith f "SOCK_") with
        | none => .error (.bail "Unable to parse socket protocol from flags")
        | some protoFlag =>
          match SocketProtocol.parse protoFlag with
          | none => .error (.bail ("Unable to parse socket protocol " ++ protoFlag))
          | some proto =>
            .ok (((sc.pid, sc.retVal), proto) :: socks,
              [.NetworkActivity ⟨.One af', .One proto, .One .SocketCreation, .All⟩])
      | _ => .error (.bail ("Unexpected args for " ++ sc.name))
  | _ => .error (.bail ("Unexpected args for " ++ sc.name))

/-- `SyscallInfo::Mknod` handler arm. -/
def mknodArm (socks : SocketMap) (sc : Syscall) (modeIdx : Nat) :
    Except SummErr (SocketMap × List ProgramAction) :=
  match sc.args.get? modeIdx with
  | some (.Integer mode) =>
    if mode.value.isFlagSet "S_IFBLK" || mode.value.isFlagSet "S_IFCHR"
    then .ok (socks, [.MknodSpecial])
    else .ok (socks, [])
  | _ => .error (.bail ("Unexpected args for " ++ sc.name))

/-- `SyscallInfo::Mmap` handler arm. -/
def mmapArm (socks : SocketMap) (sc : Syscall) (protIdx : Nat) :
    Except SummErr (SocketMap × List ProgramAction) :=
  match sc.args.get? protIdx with
  | some (.Integer ⟨prot, _⟩) =>
    if prot.isFlagSet "PROT_WRITE" && prot.isFlagSet "PROT_EXEC"
    then .ok (socks, [.WriteExecuteMemoryMapping])
    else .ok (socks, [])
  | _ => .error (.bail ("Unexpected args for " ++ sc.name))

/-- The `EPOLL_CTL_ADD` test of the `epoll_ctl` handling
(`args.get(1).is_some_and(...)`). -/
def epollIsAdd (sc : Syscall) : Bool :=
  match sc.args.get? 1 with
  | some (.Integer ⟨.NamedConst opName, _⟩) => opName = "EPOLL_CTL_ADD"
  | _ => false

/-- Special-cased `epoll_ctl` handling (not in the dispatch table). -/
def epollCtlArm (socks : SocketMap) (sc : Syscall) :
    Except SummErr (SocketMap × List ProgramAction) :=
  if epollIsAdd sc then
    match sc.args.get? 3 with
    | none => .error (.bail "Missing epoll event argument")
    | some (.Struct evtStruct) =>
      match structGet evtStruct "events" with
      | none => .error (.bail "Missing epoll events struct member")
      | some (.Integer ie) =>
        if ie.value.isFlagSet "EPOLLWAKEUP" then .ok (socks, [.Wakeup])
        else .ok (socks, [])
      | some _ => .error (.bail "Invalid epoll struct member")
    | some _ => .error (.bail "Invalid epoll event argument")
  else .ok (socks, [])

/-- Special-cased `timer_create` handling (not in the dispatch table). -/
def timerCreateArm (socks : SocketMap) (sc : Syscall) :
    Except SummErr (SocketMap × List ProgramAction) :=
  match sc.args.head? with
  | some (.Integer ⟨.NamedConst clockName, _⟩) =>
    if clockName = "CLOCK_REALTIME_ALARM" ∨ clockName = "CLOCK_BOOTTIME_ALARM"
    then .ok (socks, [.SetAlarm])
    else .ok (socks, [])
  | _ => .error (.bail ("Unexpected args for " ++ sc.name))

/-- Dispatch of one syscall through the handler table: the body of the
`match SYSCALL_MAP.get(name)` in `summarize`. -/
def dispatch (canon : String → Option String) (socks : SocketMap) (sc : Syscall) :
    Except SummErr (SocketMap × List ProgramAction) :=
  match syscallMap sc.name with
  | some (.Open relfdIdx pathIdx flagsIdx) => openArm canon socks sc relfdIdx pathIdx flagsIdx
  | some (.Rename rs ps rd pd fi) => renameArm canon socks sc rs ps rd pd fi
  | some (.StatFd fdIdx) => statFdArm canon socks sc fdIdx
  | some (.StatPath relfdIdx pathIdx) => statPathArm canon socks sc relfdIdx pathIdx
  | some (.Network sockaddrIdx) => networkArm canon socks sc sockaddrIdx
  | some .SetScheduler => setSchedulerArm socks sc
  | some .Socket => socketArm socks sc
  | some (.Mknod modeIdx) => mknodArm socks sc modeIdx
  | some (.Mmap protIdx) => mmapArm socks sc protIdx
  | none =>
    match sc.name with
    | "epoll_ctl" => epollCtlArm socks sc
    | "timer_create" => timerCreateArm socks sc
    | _ => .ok (socks, [])

/-! ## The summarize loop -/

/-- Summarizer state: observed syscall names (the stats keys) and the
per-process fd → protocol table. -/
structure SummState : Type where
  stats : List String
  knownSocketsProto : SocketMap
deriving DecidableEq

/-- Initial summarizer state. -/
def initState : SummState := ⟨[], []⟩

/-- One iteration of the `for syscall in syscalls` loop body: record the
name in the stats, then dispatch. -/
def processSyscall (canon : String → Option String) (st : SummState) (sc : Syscall) :
    Except SummErr (SummState × List ProgramAction) :=
  match dispatch canon st.knownSocketsProto sc with
  | .ok (socks', acts) => .ok (⟨insertName st.stats sc.name, socks'⟩, acts)
  | .error e => .error e

/-- The `for` loop of `summarize` over the input iterator: each item is
either a parsed syscall or an upstream error (which `syscall?` propagates);
returns the final state and the concatenated handler-emitted actions. -/
def summarizeLoop (canon : String → Option String) (st : SummState) :
    List (Except String Syscall) → Except SummErr (SummState × List ProgramAction)
  | [] => .ok (st, [])
  | .error e :: _ => .error (.bail e)
  | .ok sc :: rest =>
    match processSyscall canon st sc with
    | .error e => .error e
    | .ok (st', acts) =>
      match summarizeLoop canon st' rest with
      | .error e => .error e
      | .ok (st'', acts') => .ok (st'', acts ++ acts')

/-- `summarize`: fold the syscall stream into program actions, collapse
adjacent duplicates, and append the single `Syscalls` action carrying the
set of observed syscall names. -/
def summarize (canon : String → Option String) (input : List (Except String Syscall)) :
    Except SummErr (List ProgramAction) :=
  match summarizeLoop canon initState input with
  | .error e => .error e
  | .ok (st, acts) => .ok (dedupAdj acts ++ [.Syscalls st.stats])

deriving instance DecidableEq for Except

/-! ## Concrete inputs used by the scenario theorems -/

/-- Canonicalization that always fails: `Path::canonicalize` on paths that
do not exist at profiling time, the documented fallback case. -/
def canonNone : String → Option String := fun _ => none

/-- The relative-rename scenario syscall (spec §8(a)):
`renameat(AT_FDCWD</src>, "a", AT_FDCWD</dst>, "b", RENAME_NOREPLACE) = 0`. -/
def renameatEx : Syscall :=
  { pid := 1068781, name := "renameat",
    args := [
      .Integer ⟨.NamedConst "AT_FDCWD", some "/src"⟩,
      .Buffer ⟨"a", .Unknown⟩,
      .Integer ⟨.NamedConst "AT_FDCWD", some "/dst"⟩,
      .Buffer ⟨"b", .Unknown⟩,
      .Integer ⟨.NamedConst "RENAME_NOREPLACE", none⟩],
    retVal := 0 }

/-- The socket-then-bind scenario, first line (spec §8(c)):
`socket(AF_INET, SOCK_STREAM|SOCK_CLOEXEC, 0) = 5`. -/
def socketEx : Syscall :=
  { pid := 1000, name := "socket",
    args := [
      .Integer ⟨.NamedConst "AF_INET", none⟩,
      .Integer ⟨.BinaryOr (.NamedConst "SOCK_STREAM") (.NamedConst "SOCK_CLOEXEC"), none⟩,
      .Integer ⟨.Literal 0, none⟩],
    retVal := 5 }

/-- The socket-then-bind scenario, second line (spec §8(c)):
`bind(5, \x7bsa_family=AF_INET, sin_port=htons(8080), sin_addr=...\x7d, 16) = 0`. -/
def bindEx : Syscall :=
  { pid := 1000, name := "bind",
    args := [
      .Integer ⟨.Literal 5, none⟩,
      .Struct [
        ("sa_family", .Integer ⟨.NamedConst "AF_INET", none⟩),
        ("sin_port", .Macro "htons" [.Integer ⟨.Literal 8080, none⟩]),
        ("sin_addr", .Macro "inet_addr" [.Buffer ⟨"0.0.0.0", .Unknown⟩])],
      .Integer ⟨.Literal 16, none⟩],
    retVal := 0 }

/-- A `bind` identical to `bindEx` except that the port is `htons(0)`
(an unbound / ephemeral port request). -/
def bindZeroEx : Syscall :=
  { pid := 1000, name := "bind",
    args := [
      .Integer ⟨.Literal 5, none⟩,
      .Struct [
        ("sa_family", .Integer ⟨.NamedConst "AF_INET", none⟩),
        ("sin_port", .Macro "htons" [.Integer ⟨.Literal 0, none⟩])],
      .Integer ⟨.Literal 16, none⟩],
    retVal := 0 }

/-- An `openat` whose dirfd metadata is the relative, non-pseudo path
`foo`: `openat(3<foo>, "bar", O_RDONLY) = 3`. -/
def openatRelEx : Syscall :=
  { pid := 1, name := "openat",
    args := [
      .Integer ⟨.Literal 3, some "foo"⟩,
      .Buffer ⟨"bar", .Unknown⟩,
      .Integer ⟨.NamedConst "O_RDONLY", none⟩],
    retVal := 3 }

/-- An `openat` of `/etc/x` with `O_RDONLY` relative to `AT_FDCWD</tmp>`,
used to witness the open-handler theorem. -/
def openatTmpEx : Syscall :=
  { pid := 1, name := "openat",
    args := [
      .Integer ⟨.NamedConst "AT_FDCWD", some "/tmp"⟩,
      .Buffer ⟨"x", .Unknown⟩,
      .Integer ⟨.BinaryOr (.NamedConst "O_WRONLY") (.NamedConst "O_CREAT"), none⟩],
    retVal := 3 }

/-! ## Lemmas about adjacent deduplication -/

theorem chainNe_dedupAdjGo {α : Type} [DecidableEq α] (l : List α) :
    ∀ a : α, List.Chain' (fun x y => x ≠ y) (a :: dedupAdjGo a l) := by
  induction l with
  | nil => intro a; simp [dedupAdjGo]
  | cons b t ih =>
    intro a
    by_cases h : a = b
    · simp only [dedupAdjGo, if_pos h]
      exact ih a
    · simp only [dedupAdjGo, if_neg h]
      exact List.chain'_cons.mpr ⟨h, ih b⟩

/-- The result of `dedupAdj` has no two adjacent equal elements. -/
theorem chainNe_dedupAdj {α : Type} [DecidableEq α] (l : List α) :
    List.Chain' (fun x y => x ≠ y) (dedupAdj l) := by
  cases l with
  | nil => simp [dedupAdj]
  | cons a t => exact chainNe_dedupAdjGo t a

theorem mem_dedupAdjGo {α : Type} [DecidableEq α] (l : List α) :
    ∀ (a x : α), x ∈ dedupAdjGo a l → x ∈ l := by
  induction l with
  | nil => intro a x hx; simp [dedupAdjGo] at hx
  | cons b t ih =>
    intro a x hx
    by_cases h : a = b
    · simp only [dedupAdjGo, if_pos h] at hx
      exact List.mem_cons_of_mem _ (ih a x hx)
    · simp only [dedupAdjGo, if_neg h] at hx
      rcases List.mem_cons.mp hx with rfl | hx
      · exact List.mem_cons_self _ _
      · exact List.mem_cons_of_mem _ (ih b x hx)

/-- `dedupAdj` only removes elements. -/
theorem mem_dedupAdj {α : Type} [DecidableEq α] {l : List α} {x : α}
    (hx : x ∈ dedupAdj l) : x ∈ l := by
  cases l with
  | nil => simp [dedupAdj] at hx
  | cons a t =>
    rcases List.mem_cons.mp hx with rfl | hx
    · exact List.mem_cons_self _ _
    · exact List.mem_cons_of_mem _ (mem_dedupAdjGo t a x hx)

/-! ## Lemmas about the stats (observed syscall names) -/

theorem mem_insertName {l : List String} {n s : String} :
    s ∈ insertName l n ↔ s ∈ l ∨ s = n := by
  unfold insertName
  by_cases h : n ∈ l
  · simp only [if_pos h]
    constructor
    · exact Or.inl
    · rintro (hs | rfl)
      · exact hs
      · exact h
  · simp [if_neg h]

theorem processSyscall_stats {canon : String → Option String} {st : SummState}
    {sc : Syscall} {st' : SummState} {acts : List ProgramAction}
    (h : processSyscall canon st sc = .ok (st', acts)) :
    st'.stats = insertName st.stats sc.name := by
  unfold processSyscall at h
  cases hd : dispatch canon st.knownSocketsProto sc with
  | ok pr =>
    obtain ⟨socks', acts'⟩ := pr
    rw [hd] at h
    injection h with h
    cases h
    rfl
  | error e => rw [hd] at h; cases h

theorem summarizeLoop_stats (canon : String → Option String) :
    ∀ (input : List (Except String Syscall)) (st st' : SummState) (acts : List ProgramAction),
      summarizeLoop canon st input = .ok (st', acts) →
      ∀ s, s ∈ st'.stats ↔ s ∈ st.stats ∨ ∃ sc : Syscall, Except.ok sc ∈ input ∧ sc.name = s := by
  intro input
  induction input with
  | nil =>
    intro st st' acts h s
    unfold summarizeLoop at h
    injection h with h
    cases h
    simp
  | cons hd tl ih =>
    intro st st' acts h s
    cases hd with
    | error e => unfold summarizeLoop at h; cases h
    | ok sc =>
      unfold summarizeLoop at h
      split at h
      · cases h
      · rename_i st1 acts1 hp
        split at h
        · cases h
        · rename_i st2 acts2 hl
          injection h with h
          cases h
          have hst1 := processSyscall_stats hp
          have hmem := ih st1 st' acts2 hl s
          rw [hmem, hst1, mem_insertName]
          simp only [List.mem_cons]
          constructor
          · rintro ((hs | rfl) | ⟨sc', hsc', rfl⟩)
            · exact Or.inl hs
            · exact Or.inr ⟨sc, Or.inl rfl, rfl⟩
            · exact Or.inr ⟨sc', Or.inr hsc', rfl⟩
          · rintro (hs | ⟨sc', hsc' | hsc', rfl⟩)
            · exact Or.inl (Or.inl hs)
            · cases hsc'
              exact Or.inl (Or.inr rfl)
            · exact Or.inr ⟨sc', hsc', rfl⟩

/-! ## Membership helpers for conditional action lists -/

theorem mem_ite_singleton_append {α : Type} {c : Prop} [Decidable c] {x a : α}
    {rest : List α} (h : a ∈ (if c then [x] else []) ++ rest) : a = x ∨ a ∈ rest := by
  by_cases hc : c <;> (simp [hc] at h; tauto)

theorem mem_ite_singleton {α : Type} {c : Prop} [Decidable c] {x a : α}
    (h : a ∈ (if c then [x] else [])) : a = x := by
  by_cases hc : c
  · simp [hc] at h
    exact h
  · simp [hc] at h

theorem mem_ite_singleton_singleton_append {α : Type} {c : Prop} [Decidable c]
    {x y a : α} {rest : List α} (h : a ∈ (if c then [x] else [y]) ++ rest) :
    a = x ∨ a = y ∨ a ∈ rest := by
  by_cases hc : c <;> (simp [hc] at h; tauto)

/-! ## Classification of handler-emitted actions -/

/-- The path of an emitted filesystem action is always an output of
`resolvePath` on the originating syscall. -/
def PathFromResolve (canon : String → Option String) (sc : Syscall) (p : String) : Prop :=
  ∃ (path : String) (relfd : Option Nat), resolvePath canon path relfd sc = some p

/-- Shape invariant of every action emitted by a handler: never a
`Syscalls` action, and any carried path comes from `resolvePath`. -/
def ActShape (canon : String → Option String) (sc : Syscall) (a : ProgramAction) : Prop :=
  (∀ ns, a ≠ ProgramAction.Syscalls ns) ∧
  (∀ p, (a = .Read p ∨ a = .Write p ∨ a = .Create p) → PathFromResolve canon sc p)

theorem actShape_of_resolved {canon : String → Option String} {sc : Syscall} {p : String}
    (hres : PathFromResolve canon sc p) :
    ActShape canon sc (.Read p) ∧ ActShape canon sc (.Write p) ∧ ActShape canon sc (.Create p) := by
  refine ⟨⟨fun ns => by simp, ?_⟩, ⟨fun ns => by simp, ?_⟩, ⟨fun ns => by simp, ?_⟩⟩ <;>
    · rintro q (hq | hq | hq) <;> first | (cases hq; exact hres) | cases hq

theorem actShape_nonpath {canon : String → Option String} {sc : Syscall} {a : ProgramAction}
    (h1 : ∀ ns, a ≠ ProgramAction.Syscalls ns)
    (h2 : ∀ p, a ≠ .Read p ∧ a ≠ .Write p ∧ a ≠ .Create p) :
    ActShape canon sc a := by
  refine ⟨h1, ?_⟩
  rintro p (hp | hp | hp)
  · exact absurd hp (h2 p).1
  · exact absurd hp (h2 p).2.1
  · exact absurd hp (h2 p).2.2

theorem openArm_shape {canon : String → Option String} {socks : SocketMap} {sc : Syscall}
    {relfdIdx : Option Nat} {pathIdx flagsIdx : Nat} {socks' : SocketMap}
    {acts : List ProgramAction}
    (h : openArm canon socks sc relfdIdx pathIdx flagsIdx = .ok (socks', acts)) :
    ∀ a ∈ acts, ActShape canon sc a := by
  unfold openArm at h
  split at h
  · split at h
    · injection h with h
      cases h
      intro a ha
      simp at ha
    · rename_i p hres
      injection h with h
      cases h
      intro a ha
      rw [List.append_assoc] at ha
      have hshape := actShape_of_resolved ⟨_, _, hres⟩
      rcases mem_ite_singleton_append ha with rfl | ha
      · exact hshape.2.2
      rcases mem_ite_singleton_append ha with rfl | ha
      · exact hshape.2.1
      rcases mem_ite_singleton ha with rfl
      exact hshape.1
  · cases h

theorem renameArm_shape {canon : String → Option String} {socks : SocketMap} {sc : Syscall}
    {relfdSrcIdx : Option Nat} {pathSrcIdx : Nat} {relfdDstIdx : Option Nat}
    {pathDstIdx : Nat} {flagsIdx : Option Nat} {socks' : SocketMap}
    {acts : List ProgramAction}
    (h : renameArm canon socks sc relfdSrcIdx pathSrcIdx relfdDstIdx pathDstIdx flagsIdx
      = .ok (socks', acts)) :
    ∀ a ∈ acts, ActShape canon sc a := by
  unfold renameArm at h
  split at h
  · split at h
    · rename_i pathSrc pathDst hres1 hres2
      split at h
      · cases h
      · rename_i exchange hexch
        injection h with h
        cases h
        intro a ha
        have hs := actShape_of_resolved ⟨_, _, hres1⟩
        have hd := actShape_of_resolved ⟨_, _, hres2⟩
        rcases List.mem_append.mp ha with ha | ha
        · rcases List.mem_append.mp ha with ha | ha
          · rcases List.mem_cons.mp ha with rfl | ha
            · exact hs.1
            rcases List.mem_cons.mp ha with rfl | ha
            · exact hs.2.1
            simp at ha
          · by_cases hex : exchange = true
            · rw [if_pos hex] at ha
              rcases List.mem_singleton.mp ha with rfl
              exact hd.1
            · rw [if_neg hex] at ha
              rcases List.mem_singleton.mp ha with rfl
              exact hd.2.2
        · rcases List.mem_singleton.mp ha with rfl
          exact hd.2.1
    · injection h with h
      cases h
      intro a ha
      simp at ha
  · cases h

theorem statFdArm_shape {canon : String → Option String} {socks : SocketMap} {sc : Syscall}
    {fdIdx : Nat} {socks' : SocketMap} {acts : List ProgramAction}
    (h : statFdArm canon socks sc fdIdx = .ok (socks', acts)) :
    ∀ a ∈ acts, ActShape canon sc a := by
  unfold statFdArm at h
  split at h
  · cases h
  · split at h
    · injection h with h
      cases h
      intro a ha
      simp at ha
    · rename_i p hres
      injection h with h
      cases h
      intro a ha
      rcases List.mem_singleton.mp ha with rfl
      exact (actShape_of_resolved ⟨_, _, hres⟩).1

theorem statPathArm_shape {canon : String → Option String} {socks : SocketMap} {sc : Syscall}
    {relfdIdx : Option Nat} {pathIdx : Nat} {socks' : SocketMap} {acts : List ProgramAction}
    (h : statPathArm canon socks sc relfdIdx pathIdx = .ok (socks', acts)) :
    ∀ a ∈ acts, ActShape canon sc a := by
  unfold statPathArm at h
  split at h
  · split at h
    · injection h with h
      cases h
      intro a ha
      simp at ha
    · rename_i p hres
      injection h with h
      cases h
      intro a ha
      rcases List.mem_singleton.mp ha with rfl
      exact (actShape_of_resolved ⟨_, _, hres⟩).1
  · cases h

theorem socketAddressUdsPath_resolve {canon : String → Option String}
    {members : List (String × Expression)} {sc : Syscall} {p : String}
    (h : socketAddressUdsPath canon members sc = some p) : PathFromResolve canon sc p := by
  unfold socketAddressUdsPath at h
  split at h
  · exact ⟨_, _, h⟩
  · cases h

theorem networkUdsActions_shape {canon : String → Option String} {af : String}
    {members : List (String × Expression)} {sc : Syscall} :
    ∀ a ∈ networkUdsActions canon af members sc, ActShape canon sc a := by
  intro a ha
  unfold networkUdsActions at ha
  by_cases haf : af = "AF_UNIX"
  · rw [if_pos haf] at ha
    cases hu : socketAddressUdsPath canon members sc with
    | none => rw [hu] at ha; simp at ha
    | some p =>
      rw [hu] at ha
      rcases List.mem_singleton.mp ha with rfl
      exact (actShape_of_resolved (socketAddressUdsPath_resolve hu)).1
  · rw [if_neg haf] at ha
    simp at ha

theorem networkBind_shape {canon : String → Option String} {socks : SocketMap}
    {sc : Syscall} {af : String} {members : List (String × Expression)}
    {udsActs : List ProgramAction} {socks' : SocketMap} {acts : List ProgramAction}
    (hu : ∀ a ∈ udsActs, ActShape canon sc a)
    (h : networkBind socks sc af members udsActs = .ok (socks', acts)) :
    ∀ a ∈ acts, ActShape canon sc a := by
  unfold networkBind at h
  split at h
  · split at h
    · cases h
    · split at h
      · cases h
      · split at h
        · injection h with h
          cases h
          intro a ha
          rcases List.mem_append.mp ha with ha | ha
          · exact hu a ha
          · rcases List.mem_singleton.mp ha with rfl
            apply actShape_nonpath
            · intro ns; simp
            · intro p; simp
        · injection h with h
          cases h
          exact hu
  · cases h

theorem networkArm_shape {canon : String → Option String} {socks : SocketMap}
    {sc : Syscall} {sockaddrIdx : Nat} {socks' : SocketMap} {acts : List ProgramAction}
    (h : networkArm canon socks sc sockaddrIdx = .ok (socks', acts)) :
    ∀ a ∈ acts, ActShape canon sc a := by
  unfold networkArm at h
  split at h
  · split at h
    · split at h
      · exact networkBind_shape networkUdsActions_shape h
      · injection h with h
        cases h
        exact networkUdsActions_shape
    · cases h
  · injection h with h
    cases h
    intro a ha
    simp at ha

theorem setSchedulerArm_shape {canon : String → Option String} {socks : SocketMap}
    {sc : Syscall} {socks' : SocketMap} {acts : List ProgramAction}
    (h : setSchedulerArm socks sc = .ok (socks', acts)) :
    ∀ a ∈ acts, ActShape canon sc a := by
  unfold setSchedulerArm at h
  split at h
  · split at h <;>
      (injection h with h; cases h; intro a ha)
    · rcases List.mem_singleton.mp ha with rfl
      apply actShape_nonpath
      · intro ns; simp
      · intro p; simp
    · simp at ha
  · cases h

theorem socketArm_shape {canon : String → Option String} {socks : SocketMap}
    {sc : Syscall} {socks' : SocketMap} {acts : List ProgramAction}
    (h : socketArm socks sc = .ok (socks', acts)) :
    ∀ a ∈ acts, ActShape canon sc a := by
  unfold socketArm at h
  split at h
  · split at h
    · cases h
    · split at h
      · split at h
        · cases h
        · split at h
          · cases h
          · injection h with h
            cases h
            intro a ha
            rcases List.mem_singleton.mp ha with rfl
            apply actShape_nonpath
            · intro ns; simp
            · intro p; simp
      · cases h
  · cases h

theorem mknodArm_shape {canon : String → Option String} {socks : SocketMap}
    {sc : Syscall} {modeIdx : Nat} {socks' : SocketMap} {acts : List ProgramAction}
    (h : mknodArm socks sc modeIdx = .ok (socks', acts)) :
    ∀ a ∈ acts, ActShape canon sc a := by
  unfold mknodArm at h
  split at h
  · split at h <;>
      (injection h with h; cases h; intro a ha)
    · rcases List.mem_singleton.mp ha with rfl
      apply actShape_nonpath
      · intro ns; simp
      · intro p; simp
    · simp at ha
  · cases h

theorem mmapArm_shape {canon : String → Option String} {socks : SocketMap}
    {sc : Syscall} {protIdx : Nat} {socks' : SocketMap} {acts : List ProgramAction}
    (h : mmapArm socks sc protIdx = .ok (socks', acts)) :
    ∀ a ∈ acts, ActShape canon sc a := by
  unfold mmapArm at h
  split at h
  · split at h <;>
      (injection h with h; cases h; intro a ha)
    · rcases List.mem_singleton.mp ha with rfl
      apply actShape_nonpath
      · intro ns; simp
      · intro p; simp
    · simp at ha
  · cases h

theorem epollCtlArm_shape {canon : String → Option String} {socks : SocketMap}
    {sc : Syscall} {socks' : SocketMap} {acts : List ProgramAction}
    (h : epollCtlArm socks sc = .ok (socks', acts)) :
    ∀ a ∈ acts, ActShape canon sc a := by
  unfold epollCtlArm at h
  split at h
  · split at h
    · cases h
    · split at h
      · cases h
      · split at h <;>
          (injection h with h; cases h; intro a ha)
        · rcases List.mem_singleton.mp ha with rfl
          apply actShape_nonpath
          · intro ns; simp
          · intro p; simp
        · simp at ha
      · cases h
    · cases h
  · injection h with h
    cases h
    intro a ha
    simp at ha

theorem timerCreateArm_shape {canon : String → Option String} {socks : SocketMap}
    {sc : Syscall} {socks' : SocketMap} {acts : List ProgramAction}
    (h : timerCreateArm socks sc = .ok (socks', acts)) :
    ∀ a ∈ acts, ActShape canon sc a := by
  unfold timerCreateArm at h
  split at h
  · split at h <;>
      (injection h with h; cases h; intro a ha)
    · rcases List.mem_singleton.mp ha with rfl
      apply actShape_nonpath
      · intro ns; simp
      · intro p; simp
    · simp at ha
  · cases h

/-- Every action emitted by `dispatch` satisfies the shape invariant. -/
theorem dispatch_shape {canon : String → Option String} {socks : SocketMap}
    {sc : Syscall} {socks' : SocketMap} {acts : List ProgramAction}
    (h : dispatch canon socks sc = .ok (socks', acts)) :
    ∀ a ∈ acts, ActShape canon sc a := by
  unfold dispatch at h
  split at h
  · exact openArm_shape h
  · exact renameArm_shape h
  · exact statFdArm_shape h
  · exact statPathArm_shape h
  · exact networkArm_shape h
  · exact setSchedulerArm_shape h
  · exact socketArm_shape h
  · exact mknodArm_shape h
  · exact mmapArm_shape h
  · split at h
    · exact epollCtlArm_shape h
    · exact timerCreateArm_shape h
    · injection h with h
      cases h
      intro a ha
      simp at ha

theorem processSyscall_shape {canon : String → Option String} {st : SummState}
    {sc : Syscall} {st' : SummState} {acts : List ProgramAction}
    (h : processSyscall canon st sc = .ok (st', acts)) :
    ∀ a ∈ acts, ActShape canon sc a := by
  unfold processSyscall at h
  cases hd : dispatch canon st.knownSocketsProto sc with
  | ok pr =>
    obtain ⟨socks', acts'⟩ := pr
    rw [hd] at h
    injection h with h
    cases h
    exact dispatch_shape hd
  | error e => rw [hd] at h; cases h

/-- Every action accumulated by the summarize loop satisfies the shape
invariant for some syscall of the input. -/
theorem summarizeLoop_shape (canon : String → Option String) :
    ∀ (input : List (Except String Syscall)) (st st' : SummState)
      (acts : List ProgramAction),
      summarizeLoop canon st input = .ok (st', acts) →
      ∀ a ∈ acts, ∃ sc : Syscall, Except.ok sc ∈ input ∧ ActShape canon sc a := by
  intro input
  induction input with
  | nil =>
    intro st st' acts h a ha
    unfold summarizeLoop at h
    injection h with h
    cases h
    simp at ha
  | cons hd tl ih =>
    intro st st' acts h a ha
    cases hd with
    | error e => unfold summarizeLoop at h; cases h
    | ok sc =>
      unfold summarizeLoop at h
      split at h
      · cases h
      · rename_i st1 acts1 hp
        split at h
        · cases h
        · rename_i st2 acts2 hl
          injection h with h
          cases h
          rcases List.mem_append.mp ha with ha | ha
          · exact ⟨sc, List.mem_cons_self _ _, processSyscall_shape hp a ha⟩
          · obtain ⟨sc', hsc', hshape⟩ := ih st1 st' acts2 hl a ha
            exact ⟨sc', List.mem_cons_of_mem _ hsc', hshape⟩

/-! ## Claim C1 -/

/-- C1: for every finite input stream of well-formed syscall records (one
on which `summarize` succeeds), the result is `Ok` of the handler-emitted
action sequence with adjacent equal actions collapsed, followed by exactly
one final `Syscalls` action whose set is exactly the names of all observed
syscalls (whatever their handling); removing that final `Syscalls` action
leaves a sequence with no two adjacent equal actions and no `Syscalls`
action. -/
theorem c1_summarize_dedup_then_syscalls (canon : String → Option String)
    (input : List (Except String Syscall)) (acts : List ProgramAction)
    (h : summarize canon input = .ok acts) :
    ∃ (st : SummState) (core : List ProgramAction),
      summarizeLoop canon initState input = .ok (st, core) ∧
      acts = dedupAdj core ++ [.Syscalls st.stats] ∧
      List.Chain' (fun a b => a ≠ b) (dedupAdj core) ∧
      (∀ ns, ProgramAction.Syscalls ns ∉ dedupAdj core) ∧
      (∀ s, s ∈ st.stats ↔ ∃ sc : Syscall, Except.ok sc ∈ input ∧ sc.name = s) := by
  unfold summarize at h
  split at h
  · cases h
  · rename_i st core hl
    injection h with h
    refine ⟨st, core, hl, h.symm, chainNe_dedupAdj core, ?_, ?_⟩
    · intro ns hmem
      obtain ⟨sc, _, hshape⟩ :=
        summarizeLoop_shape canon input initState st core hl _ (mem_dedupAdj hmem)
      exact hshape.1 ns rfl
    · intro s
      have := summarizeLoop_stats canon input initState st core hl s
      simpa [initState] using this

/-- Witness for C1 at the relative-rename input. -/
theorem c1_witness :
    ∃ (st : SummState) (core : List ProgramAction),
      summarizeLoop canonNone initState [Except.ok renameatEx] = .ok (st, core) ∧
      [ProgramAction.Read "/src/a", ProgramAction.Write "/src/a",
        ProgramAction.Create "/dst/b", ProgramAction.Write "/dst/b",
        ProgramAction.Syscalls ["renameat"]] = dedupAdj core ++ [.Syscalls st.stats] ∧
      List.Chain' (fun a b => a ≠ b) (dedupAdj core) ∧
      (∀ ns, ProgramAction.Syscalls ns ∉ dedupAdj core) ∧
      (∀ s, s ∈ st.stats ↔
        ∃ sc : Syscall, (Except.ok sc : Except String Syscall) ∈ [Except.ok renameatEx] ∧
          sc.name = s) :=
  c1_summarize_dedup_then_syscalls canonNone [Except.ok renameatEx]
    [.Read "/src/a", .Write "/src/a", .Create "/dst/b", .Write "/dst/b",
      .Syscalls ["renameat"]] (by decide)

/-! ## Claim C2 -/

/-- C2: for every `open`/`openat` syscall whose path argument is a plain
(non-abstract) buffer, whose flags argument is an integer expression, and
whose path resolves to `p`, the handler emits, in this order: `Create p`
iff `O_CREAT` is set, `Write p` iff any of `O_WRONLY`, `O_RDWR`, `O_TRUNC`
is set, `Read p` iff `O_WRONLY` is not set. -/
theorem c2_open_actions (canon : String → Option String) (socks : SocketMap)
    (sc : Syscall) (relfdIdx : Option Nat) (pathIdx flagsIdx : Nat)
    (b : String) (e : IntegerExpressionValue) (md : Option String) (p : String)
    (hmap : syscallMap sc.name = some (.Open relfdIdx pathIdx flagsIdx))
    (hpath : sc.args.get? pathIdx = some (.Buffer ⟨b, .Unknown⟩))
    (hflags : sc.args.get? flagsIdx = some (.Integer ⟨e, md⟩))
    (hres : resolvePath canon b relfdIdx sc = some p) :
    dispatch canon socks sc = .ok (socks,
      (if e.isFlagSet "O_CREAT" then [.Create p] else [])
      ++ (if e.isFlagSet "O_WRONLY" || e.isFlagSet "O_RDWR" || e.isFlagSet "O_TRUNC"
          then [.Write p] else [])
      ++ (if !e.isFlagSet "O_WRONLY" then [.Read p] else [])) := by
  simp only [dispatch, openArm, hmap, hpath, hflags, hres]

/-- Witness for C2 at `openat(AT_FDCWD</tmp>, "x", O_WRONLY|O_CREAT)`. -/
theorem c2_witness : dispatch canonNone [] openatTmpEx =
    .ok ([], [.Create "/tmp/x", .Write "/tmp/x"]) := by
  exact c2_open_actions canonNone [] openatTmpEx (some 0) 1 2 "x"
    (.BinaryOr (.NamedConst "O_WRONLY") (.NamedConst "O_CREAT")) none "/tmp/x"
    rfl rfl rfl rfl

/-! ## Claim C3 -/

/-- C3: every `rename`/`renameat`/`renameat2` whose source and destination
path arguments are plain buffers and both resolve emits `Read src`,
`Write src`, then `Read dst` if the flags contain `RENAME_EXCHANGE` else
`Create dst`, then `Write dst`; in particular the single
`renameat(AT_FDCWD</src>, "a", AT_FDCWD</dst>, "b", RENAME_NOREPLACE) = 0`
yields exactly `Read /src/a, Write /src/a, Create /dst/b, Write /dst/b,
Syscalls(\x7b"renameat"\x7d)`. -/
theorem c3_rename_actions :
    (∀ (canon : String → Option String) (socks : SocketMap) (sc : Syscall)
       (rs : Option Nat) (ps : Nat) (rd : Option Nat) (pd : Nat) (fi : Option Nat)
       (b1 b2 pathSrc pathDst : String) (exch : Bool),
       syscallMap sc.name = some (.Rename rs ps rd pd fi) →
       sc.args.get? ps = some (.Buffer ⟨b1, .Unknown⟩) →
       sc.args.get? pd = some (.Buffer ⟨b2, .Unknown⟩) →
       resolvePath canon b1 rs sc = some pathSrc →
       resolvePath canon b2 rd sc = some pathDst →
       renameExchange sc fi = .ok exch →
       dispatch canon socks sc = .ok (socks,
         [.Read pathSrc, .Write pathSrc]
         ++ (if exch then [.Read pathDst] else [.Create pathDst])
         ++ [.Write pathDst])) ∧
    summarize canonNone [.ok renameatEx] =
      .ok [.Read "/src/a", .Write "/src/a", .Create "/dst/b", .Write "/dst/b",
        .Syscalls ["renameat"]] := by
  constructor
  · intro canon socks sc rs ps rd pd fi b1 b2 pathSrc pathDst exch hmap h1 h2 hr1 hr2 hex
    simp only [dispatch, renameArm, hmap, h1, h2, hr1, hr2, hex]
  · decide

/-- Witness for C3's universally quantified part at the relative-rename
input. -/
theorem c3_witness : dispatch canonNone [] renameatEx =
    .ok ([], [.Read "/src/a", .Write "/src/a", .Create "/dst/b", .Write "/dst/b"]) := by
  exact c3_rename_actions.1 canonNone [] renameatEx (some 0) 1 (some 2) 3 Option.none
    "a" "b" "/src/a" "/dst/b" false rfl rfl rfl rfl rfl rfl

/-! ## Claim C4 -/

/-- Every action of the Unix-domain part of the network handler is a
`Read`. -/
theorem networkUdsActions_read {canon : String → Option String} {af : String}
    {members : List (String × Expression)} {sc : Syscall} :
    ∀ a ∈ networkUdsActions canon af members sc, ∃ p, a = ProgramAction.Read p := by
  intro a ha
  unfold networkUdsActions at ha
  by_cases haf : af = "AF_UNIX"
  · rw [if_pos haf] at ha
    cases hu : socketAddressUdsPath canon members sc with
    | none => rw [hu] at ha; simp at ha
    | some p =>
      rw [hu] at ha
      rcases List.mem_singleton.mp ha with rfl
      exact ⟨p, rfl⟩
  · rw [if_neg haf] at ha
    simp at ha

/-- C4: the `socket(AF_INET, SOCK_STREAM|SOCK_CLOEXEC, 0) = 5` then
`bind(5, ..htons(8080).., 16) = 0` stream yields exactly the
socket-creation activity (TCP, all ports), the bind activity (port 8080),
and `Syscalls(\x7b"socket","bind"\x7d)`; and a `bind` whose `(pid, fd)`
pair is not in the socket table emits no `NetworkActivity` action. -/
theorem c4_socket_bind :
    ((summarize canonNone [.ok socketEx, .ok bindEx] =
      .ok [.NetworkActivity ⟨.One "AF_INET", .One .Tcp, .One .SocketCreation, .All⟩,
           .NetworkActivity ⟨.One "AF_INET", .One .Tcp, .One .Bind, .One 8080⟩,
           .Syscalls ["socket", "bind"]]) ∧
      (∀ s, s ∈ ["socket", "bind"] ↔ s = "socket" ∨ s = "bind")) ∧
    (∀ (canon : String → Option String) (socks : SocketMap) (sc : Syscall)
       (socks' : SocketMap) (acts : List ProgramAction) (fd : Int) (md : Option String),
       sc.name = "bind" →
       sc.args.head? = some (.Integer ⟨.Literal fd, md⟩) →
       lookupProto socks (sc.pid, fd) = none →
       dispatch canon socks sc = .ok (socks', acts) →
       ∀ na : NetworkActivity, ProgramAction.NetworkActivity na ∉ acts) := by
  constructor
  · constructor
    · decide
    · intro s
      simp only [List.mem_cons, List.not_mem_nil, or_false]
  · intro canon socks sc socks' acts fd md hname hfd hlook hdisp na hmem
    have hm : syscallMap "bind" = some (.Network 1) := rfl
    unfold dispatch at hdisp
    simp only [hname, hm] at hdisp
    unfold networkArm at hdisp
    simp only [hname, if_pos] at hdisp
    split at hdisp
    · split at hdisp
      · unfold networkBind at hdisp
        split at hdisp
        · rename_i fd' md' hfd'
          rw [hfd] at hfd'
          injection hfd' with hfd'
          injection hfd' with hfd'
          injection hfd' with hfd' hmd'
          injection hfd' with hfd'
          split at hdisp
          · cases hdisp
          · split at hdisp
            · cases hdisp
            · split at hdisp
              · rename_i proto hproto
                rw [← hfd', hlook] at hproto
                cases hproto
              · injection hdisp with hdisp
                cases hdisp
                obtain ⟨p, hp⟩ := networkUdsActions_read _ hmem
                cases hp
        · cases hdisp
      · cases hdisp
    · injection hdisp with hdisp
      cases hdisp
      simp at hmem

/-- Witness for C4's universally quantified part: a `bind` with no prior
`socket` emits nothing. -/
theorem c4_witness :
    ∀ na : NetworkActivity, ProgramAction.NetworkActivity na ∉ ([] : List ProgramAction) :=
  c4_socket_bind.2 canonNone [] bindEx [] [] 5 Option.none rfl rfl rfl rfl

/-! ## Well-formedness predicates of the countable set algebra -/

/-- The documented `Some`/`AllExcept` invariant: the element list is
strictly ascending (hence duplicate-free). -/
def cssSorted : CountableSetSpecifier Nat → Prop
  | .Some es => es.Pairwise (· < ·)
  | .AllExcept es => es.Pairwise (· < ·)
  | _ => True

/-- All stored elements are valid `NetworkPort` values. -/
def cssElemsOk : CountableSetSpecifier Nat → Prop
  | .None => True
  | .One e => portOk e
  | .Some es => ∀ e ∈ es, portOk e
  | .AllExcept es => ∀ e ∈ es, portOk e
  | .All => True

instance (s : CountableSetSpecifier Nat) : Decidable (cssSorted s) := by
  unfold cssSorted
  cases s <;> infer_instance

instance (s : CountableSetSpecifier Nat) : Decidable (cssElemsOk s) := by
  unfold cssElemsOk
  cases s <;> infer_instance

/-! ## Sorted insertion lemmas (for `remove` on `AllExcept`) -/

theorem mem_insertSortedAt {xs : List Nat} {x y : Nat} :
    y ∈ CountableSetSpecifier.insertSortedAt xs x ↔ y = x ∨ y ∈ xs := by
  unfold CountableSetSpecifier.insertSortedAt
  conv_rhs => rw [← List.takeWhile_append_dropWhile (p := fun e => decide (e < x)) (l := xs)]
  simp only [List.mem_append, List.mem_cons]
  tauto

theorem sorted_dropWhile_lt {xs : List Nat} {x : Nat} (hs : xs.Pairwise (· < ·))
    (hx : x ∉ xs) : ∀ y ∈ xs.dropWhile (fun e => decide (e < x)), x < y := by
  induction xs with
  | nil => simp
  | cons a t ih =>
    rw [List.pairwise_cons] at hs
    have hxa : x ≠ a := fun hh => hx (hh ▸ List.mem_cons_self a t)
    by_cases ha : a < x
    · rw [List.dropWhile_cons_of_pos (by simpa using ha)]
      exact ih hs.2 (fun hmem => hx (List.mem_cons_of_mem _ hmem))
    · rw [List.dropWhile_cons_of_neg (by simpa using ha)]
      intro y hy
      rcases List.mem_cons.mp hy with rfl | hy
      · omega
      · have h1 : a < y := hs.1 y hy
        omega

theorem sorted_insertSortedAt {xs : List Nat} {x : Nat} (hs : xs.Pairwise (· < ·))
    (hx : x ∉ xs) : (CountableSetSpecifier.insertSortedAt xs x).Pairwise (· < ·) := by
  unfold CountableSetSpecifier.insertSortedAt
  rw [List.pairwise_append]
  refine ⟨hs.sublist (List.takeWhile_sublist _), ?_, ?_⟩
  · rw [List.pairwise_cons]
    exact ⟨sorted_dropWhile_lt hs hx, hs.sublist (List.dropWhile_sublist _)⟩
  · intro a ha b hb
    have ha' : a < x := by simpa using List.mem_takeWhile_imp ha
    rcases List.mem_cons.mp hb with rfl | hb
    · exact ha'
    · exact lt_trans ha' (sorted_dropWhile_lt hs hx b hb)

/-! ## Claim C6 -/

/-- Counterexample to C6 as stated: C6 quantifies over every
`CountableSetSpecifier` value, but without the documented strictly
ascending list invariant `remove` does not remove: deleting 3 from the
invariant-violating value `Some [3, 3]` erases only the first occurrence,
so the element is still contained afterwards. -/
theorem c6_counterexample :
    (CountableSetSpecifier.Some [3, 3]).containsOne 3 = true ∧
    (CountableSetSpecifier.Some [3, 3]).remove 3 = some (.Some [3]) ∧
    (CountableSetSpecifier.Some [3]).containsOne 3 = true := by
  decide

/-- C6 (amended: the `Some`/`AllExcept` element list is required to
satisfy its documented strictly-ascending invariant): after removing a
contained element `e`, `e` is no longer contained, every other element is
unchanged, the set size (over the port universe) does not increase, and
the variant transitions are `All → AllExcept [e]`, `One e → None`,
`Some → Some` with `e` deleted, `AllExcept xs → AllExcept (xs ∪ \x7be\x7d)`
preserving strictly ascending order. -/
theorem c6_remove_spec (s : CountableSetSpecifier Nat) (e : Nat)
    (hsorted : cssSorted s) (hmem : s.containsOne e = true) :
    ∃ s', s.remove e = some s' ∧
      s'.containsOne e = false ∧
      (∀ x, x ≠ e → s'.containsOne x = s.containsOne x) ∧
      ((Finset.Icc 1 65535).filter (fun p => s'.containsOne p = true)).card ≤
        ((Finset.Icc 1 65535).filter (fun p => s.containsOne p = true)).card ∧
      (s = .All → s' = .AllExcept [e]) ∧
      (∀ x, s = .One x → s' = .None) ∧
      (∀ es, s = .Some es → s' = .Some (es.erase e)) ∧
      (∀ xs, s = .AllExcept xs → ∃ ys, s' = .AllExcept ys ∧
        ys.Pairwise (· < ·) ∧ (∀ x, x ∈ ys ↔ x = e ∨ x ∈ xs)) := by
  suffices h : ∃ s', s.remove e = some s' ∧
      s'.containsOne e = false ∧
      (∀ x, x ≠ e → s'.containsOne x = s.containsOne x) ∧
      (s = .All → s' = .AllExcept [e]) ∧
      (∀ x, s = .One x → s' = .None) ∧
      (∀ es, s = .Some es → s' = .Some (es.erase e)) ∧
      (∀ xs, s = .AllExcept xs → ∃ ys, s' = .AllExcept ys ∧
        ys.Pairwise (· < ·) ∧ (∀ x, x ∈ ys ↔ x = e ∨ x ∈ xs)) by
    obtain ⟨s', h1, h2, h3, h4⟩ := h
    refine ⟨s', h1, h2, h3, ?_, h4⟩
    apply Finset.card_le_card
    intro p hp
    rw [Finset.mem_filter] at hp ⊢
    refine ⟨hp.1, ?_⟩
    by_cases hpe : p = e
    · subst hpe
      rw [h2] at hp
      cases hp.2
    · exact h3 p hpe ▸ hp.2
  cases s with
  | None => simp [CountableSetSpecifier.containsOne] at hmem
  | One x =>
    have hx : x = e := by
      simpa [CountableSetSpecifier.containsOne] using hmem
    subst hx
    refine ⟨.None, rfl, rfl, ?_, ?_, fun _ _ => rfl, ?_, ?_⟩
    · intro y hy
      have hxy : x ≠ y := fun h => hy h.symm
      simp [CountableSetSpecifier.containsOne, hxy]
    · intro h; cases h
    · intro es h; cases h
    · intro xs h; cases h
  | Some es =>
    simp only [cssSorted] at hsorted
    have he : e ∈ es := by
      simpa [CountableSetSpecifier.containsOne] using hmem
    have hnodup : es.Nodup := hsorted.imp (fun h => Nat.ne_of_lt h)
    refine ⟨.Some (es.erase e), ?_, ?_, ?_, ?_, ?_, ?_, ?_⟩
    · simp [CountableSetSpecifier.remove, he]
    · simp [CountableSetSpecifier.containsOne, hnodup.mem_erase_iff]
    · intro x hx
      simp only [CountableSetSpecifier.containsOne]
      rw [decide_eq_decide]
      rw [hnodup.mem_erase_iff]
      simp [hx]
    · intro h; cases h
    · intro x h; cases h
    · intro es' h
      injection h with h
      subst h
      rfl
    · intro xs h; cases h
  | AllExcept xs =>
    simp only [cssSorted] at hsorted
    have he : e ∉ xs := by
      simpa [CountableSetSpecifier.containsOne] using hmem
    refine ⟨.AllExcept (CountableSetSpecifier.insertSortedAt xs e), ?_, ?_, ?_, ?_, ?_, ?_, ?_⟩
    · simp [CountableSetSpecifier.remove, he]
    · simp [CountableSetSpecifier.containsOne, mem_insertSortedAt]
    · intro x hx
      simp only [CountableSetSpecifier.containsOne]
      congr 1
      rw [decide_eq_decide]
      rw [mem_insertSortedAt]
      simp [hx]
    · intro h; cases h
    · intro x h; cases h
    · intro es h; cases h
    · intro xs' h
      injection h with h
      subst h
      exact ⟨_, rfl, sorted_insertSortedAt hsorted he, fun x => mem_insertSortedAt⟩
  | All =>
    refine ⟨.AllExcept [e], rfl, ?_, ?_, fun _ => rfl, ?_, ?_, ?_⟩
    · simp [CountableSetSpecifier.containsOne]
    · intro x hx
      simp [CountableSetSpecifier.containsOne, hx]
    · intro x h; cases h
    · intro es h; cases h
    · intro xs h; cases h

/-- Witness for C6 at `Some [2, 5]`, removing 5. -/
theorem c6_witness :
    ∃ s', (CountableSetSpecifier.Some [2, 5]).remove 5 = some s' ∧
      s'.containsOne 5 = false ∧
      (∀ x, x ≠ 5 → s'.containsOne x = (CountableSetSpecifier.Some [2, 5]).containsOne x) ∧
      ((Finset.Icc 1 65535).filter (fun p => s'.containsOne p = true)).card ≤
        ((Finset.Icc 1 65535).filter
          (fun p => (CountableSetSpecifier.Some [2, 5]).containsOne p = true)).card ∧
      (CountableSetSpecifier.Some [2, 5] = .All → s' = .AllExcept [5]) ∧
      (∀ x, CountableSetSpecifier.Some [2, 5] = .One x → s' = .None) ∧
      (∀ es, CountableSetSpecifier.Some [2, 5] = .Some es → s' = .Some (es.erase 5)) ∧
      (∀ xs, CountableSetSpecifier.Some [2, 5] = .AllExcept xs → ∃ ys, s' = .AllExcept ys ∧
        ys.Pairwise (· < ·) ∧ (∀ x, x ∈ ys ↔ x = 5 ∨ x ∈ xs)) :=
  c6_remove_spec (.Some [2, 5]) 5 (by decide) (by decide)

/-! ## Claim C5: interval decomposition -/

theorem coveredBy_append {l1 l2 : List PortRange} {p : Nat} :
    coveredBy (l1 ++ l2) p ↔ coveredBy l1 p ∨ coveredBy l2 p := by
  unfold coveredBy
  constructor
  · rintro ⟨r, hr, h⟩
    rcases List.mem_append.mp hr with hr | hr
    · exact Or.inl ⟨r, hr, h⟩
    · exact Or.inr ⟨r, hr, h⟩
  · rintro (⟨r, hr, h⟩ | ⟨r, hr, h⟩)
    · exact ⟨r, List.mem_append.mpr (Or.inl hr), h⟩
    · exact ⟨r, List.mem_append.mpr (Or.inr hr), h⟩

theorem coveredBy_singleton {r : PortRange} {p : Nat} :
    coveredBy [r] p ↔ r.start ≤ p ∧ p ≤ r.stop := by
  unfold coveredBy
  simp

theorem coveredBy_nil {p : Nat} : ¬ coveredBy [] p := by
  unfold coveredBy
  simp

/-- Specification of the `AllExcept` loop of `ranges`, for a current
interval start `s`: the produced intervals are non-empty, within
`[s, portMaxValue]`, pairwise disjoint and sorted, and cover exactly the
ports of `[s, portMaxValue]` that are not excluded. -/
theorem raeLoop_spec :
    ∀ (excs : List Nat) (s : Nat), 1 ≤ s →
      (∀ e ∈ excs, s ≤ e ∧ e ≤ portMaxValue) →
      excs.Pairwise (· < ·) →
      (∀ r ∈ CountableSetSpecifier.raeLoop (some s) excs,
          s ≤ r.start ∧ r.start ≤ r.stop ∧ r.stop ≤ portMaxValue) ∧
      (CountableSetSpecifier.raeLoop (some s) excs).Pairwise
        (fun a b => a.stop < b.start) ∧
      (∀ p, coveredBy (CountableSetSpecifier.raeLoop (some s) excs) p ↔
          (s ≤ p ∧ p ≤ portMaxValue ∧ p ∉ excs)) := by
  have hpm : portMinValue = 1 := rfl
  have hpx : portMaxValue = 65535 := rfl
  intro excs
  induction excs with
  | nil =>
    intro s hs1 _ _
    by_cases hs : s ≤ portMaxValue
    · refine ⟨?_, ?_, ?_⟩
      · intro r hr
        simp only [CountableSetSpecifier.raeLoop, if_pos hs] at hr
        rcases List.mem_singleton.mp hr with rfl
        exact ⟨le_refl _, hs, le_refl _⟩
      · simp [CountableSetSpecifier.raeLoop, if_pos hs]
      · intro p
        simp only [CountableSetSpecifier.raeLoop, if_pos hs]
        rw [coveredBy_singleton]
        simp
    · refine ⟨?_, ?_, ?_⟩
      · intro r hr
        simp [CountableSetSpecifier.raeLoop, if_neg hs] at hr
      · simp [CountableSetSpecifier.raeLoop, if_neg hs]
      · intro p
        simp only [CountableSetSpecifier.raeLoop, if_neg hs]
        constructor
        · intro hc; exact absurd hc coveredBy_nil
        · intro ⟨h1, h2, _⟩; omega
  | cons exc rest ih =>
    intro s hs1 hin hsort
    obtain ⟨hse, hemax⟩ := hin exc (List.mem_cons_self _ _)
    rw [List.pairwise_cons] at hsort
    have hrest_in : ∀ e ∈ rest, s ≤ e ∧ e ≤ portMaxValue :=
      fun e he => hin e (List.mem_cons_of_mem _ he)
    by_cases hmaxc : exc = portMaxValue
    · -- the maximal port is excluded: the loop ends with no open interval
      have hrest : rest = [] := by
        cases rest with
        | nil => rfl
        | cons a t =>
          have h1 := (hrest_in a (List.mem_cons_self _ _)).2
          have h2 := hsort.1 a (List.mem_cons_self _ _)
          omega
      subst hrest
      have hne1 : exc ≠ portMinValue := by omega
      have hshape : CountableSetSpecifier.raeLoop (some s) [exc] =
          if s ≤ exc - 1 then [⟨s, exc - 1⟩] else [] := by
        simp only [CountableSetSpecifier.raeLoop, if_pos hne1,
          if_pos hmaxc, Option.getD_some, List.append_nil]
      rw [hshape]
      by_cases hpre : s ≤ exc - 1
      · rw [if_pos hpre]
        refine ⟨?_, ?_, ?_⟩
        · intro r hr
          rcases List.mem_singleton.mp hr with rfl
          exact ⟨le_refl _, hpre, by show exc - 1 ≤ portMaxValue; omega⟩
        · simp
        · intro p
          rw [coveredBy_singleton]
          simp only [List.mem_singleton]
          constructor
          · intro ⟨h1, h2⟩
            have h1' : s ≤ p := h1
            have h2' : p ≤ exc - 1 := h2
            refine ⟨h1', by omega, ?_⟩
            intro hmem
            omega
          · intro ⟨h1, h2, h3⟩
            exact ⟨h1, by show p ≤ exc - 1; omega⟩
      · rw [if_neg hpre]
        refine ⟨by simp, by simp, ?_⟩
        intro p
        constructor
        · intro hc; exact absurd hc coveredBy_nil
        · intro ⟨h1, h2, h3⟩
          have hne : p ≠ exc := by
              intro hh
              exact h3 (by rw [hh]; exact List.mem_cons_self _ _)
          omega
    · -- exc < portMaxValue: the next interval starts at exc + 1
      have hexcmax : exc < portMaxValue := lt_of_le_of_ne hemax hmaxc
      have ihyp := ih (exc + 1) (by omega)
        (fun e he => ⟨by have := hsort.1 e he; omega, (hrest_in e he).2⟩) hsort.2
      obtain ⟨ihb, ihpw, ihcov⟩ := ihyp
      have hshape : CountableSetSpecifier.raeLoop (some s) (exc :: rest) =
          (if exc ≠ portMinValue then
            (if s ≤ exc - 1 then [(⟨s, exc - 1⟩ : PortRange)] else []) else [])
          ++ CountableSetSpecifier.raeLoop (some (exc + 1)) rest := by
        simp only [CountableSetSpecifier.raeLoop, if_neg hmaxc, Option.getD_some]
      rw [hshape]
      have hpre_bounds : ∀ r ∈ (if exc ≠ portMinValue then
          (if s ≤ exc - 1 then [(⟨s, exc - 1⟩ : PortRange)] else []) else []),
          r.start = s ∧ r.stop = exc - 1 ∧ s ≤ exc - 1 ∧ exc ≠ portMinValue := by
        intro r hr
        by_cases h1 : exc = portMinValue
        · rw [if_neg (fun hh => hh h1)] at hr
          simp at hr
        · rw [if_pos h1] at hr
          by_cases h2 : s ≤ exc - 1
          · rw [if_pos h2] at hr
            rcases List.mem_singleton.mp hr with rfl
            exact ⟨rfl, rfl, h2, h1⟩
          · rw [if_neg h2] at hr
            simp at hr
      refine ⟨?_, ?_, ?_⟩
      · intro r hr
        rcases List.mem_append.mp hr with hr | hr
        · obtain ⟨he1, he2, he3, _⟩ := hpre_bounds r hr
          rw [he1, he2]
          exact ⟨le_refl _, he3, by omega⟩
        · obtain ⟨hb1, hb2, hb3⟩ := ihb r hr
          exact ⟨by omega, hb2, hb3⟩
      · rw [List.pairwise_append]
        refine ⟨?_, ihpw, ?_⟩
        · by_cases h1 : exc = portMinValue
          · rw [if_neg (fun hh => hh h1)]
            simp
          · rw [if_pos h1]
            by_cases h2 : s ≤ exc - 1
            · rw [if_pos h2]; simp
            · rw [if_neg h2]; simp
        · intro a ha b hb
          obtain ⟨he1, he2, _, _⟩ := hpre_bounds a ha
          obtain ⟨hb1, _, _⟩ := ihb b hb
          rw [he2]
          omega
      · intro p
        rw [coveredBy_append, ihcov p]
        have hexcrest : p ∈ rest → exc < p := fun hp => hsort.1 p hp
        constructor
        · rintro (hc | ⟨h1, h2, h3⟩)
          · -- covered by the interval before exc
            rcases Classical.em (exc = portMinValue) with h1 | h1
            · rw [if_neg (fun hh => hh h1)] at hc
              exact absurd hc coveredBy_nil
            · rw [if_pos h1] at hc
              rcases Classical.em (s ≤ exc - 1) with h2 | h2
              · rw [if_pos h2] at hc
                rw [coveredBy_singleton] at hc
                obtain ⟨hc1, hc2⟩ := hc
                have hc1' : s ≤ p := hc1
                have hc2' : p ≤ exc - 1 := hc2
                refine ⟨hc1', by omega, ?_⟩
                intro hmem
                rcases List.mem_cons.mp hmem with rfl | hmem
                · omega
                · have := hexcrest hmem
                  omega
              · rw [if_neg h2] at hc
                exact absurd hc coveredBy_nil
          · -- covered by the recursive call
            refine ⟨by omega, h2, ?_⟩
            intro hmem
            rcases List.mem_cons.mp hmem with rfl | hmem
            · omega
            · exact h3 hmem
        · rintro ⟨h1, h2, h3⟩
          have hne : p ≠ exc := by
              intro hh
              exact h3 (by rw [hh]; exact List.mem_cons_self _ _)
          have hnr : p ∉ rest := fun hh => h3 (List.mem_cons_of_mem _ hh)
          rcases Nat.lt_or_ge p exc with hlt | hge
          · left
            rw [if_pos (by omega : exc ≠ portMinValue)]
            rw [if_pos (by omega : s ≤ exc - 1)]
            rw [coveredBy_singleton]
            exact ⟨h1, by show p ≤ exc - 1; omega⟩
          · right
            exact ⟨by omega, h2, hnr⟩

/-- The `AllExcept` exclusion list is non-empty (the amendment C5 needs:
`AllExcept []` is never built by the program, `remove` only grows the
list). -/
def cssAllExceptNonempty : CountableSetSpecifier Nat → Prop
  | .AllExcept es => es ≠ []
  | _ => True

instance (s : CountableSetSpecifier Nat) : Decidable (cssAllExceptNonempty s) := by
  unfold cssAllExceptNonempty
  cases s <;> infer_instance

/-- Counterexample to C5 as stated: the value `AllExcept []` has a
strictly ascending (empty) element list, contains port 1, yet its
`ranges()` is empty, so the interval union misses the set. -/
theorem c5_counterexample :
    (CountableSetSpecifier.AllExcept ([] : List Nat)).containsOne 1 = true ∧
    (CountableSetSpecifier.AllExcept ([] : List Nat)).ranges = [] := by
  decide

/-- C5 (amended: `AllExcept` lists are additionally required to be
non-empty): for every countable port-set specifier with strictly
ascending, in-range element lists, `ranges()` returns intervals that are
non-empty, pairwise disjoint and sorted, and whose union is exactly the
set of ports the specifier contains; and removing port 1 then port 65535
from `All` yields `ranges()` equal to `[2..=65534]`. -/
theorem c5_ranges_spec (s : CountableSetSpecifier Nat)
    (hsorted : cssSorted s) (hok : cssElemsOk s) (hne : cssAllExceptNonempty s) :
    (∀ r ∈ s.ranges, r.start ≤ r.stop) ∧
    s.ranges.Pairwise (fun a b => a.stop < b.start) ∧
    (∀ p, coveredBy s.ranges p ↔ (portOk p ∧ s.containsOne p = true)) ∧
    ((CountableSetSpecifier.All.remove 1).bind (fun t => t.remove 65535) =
        some (.AllExcept [1, 65535]) ∧
      (CountableSetSpecifier.AllExcept [1, 65535]).ranges = [⟨2, 65534⟩]) := by
  have hconc : (CountableSetSpecifier.All.remove 1).bind (fun t => t.remove 65535) =
      some (.AllExcept [1, 65535]) ∧
      (CountableSetSpecifier.AllExcept [1, 65535]).ranges = [⟨2, 65534⟩] := by
    constructor
    · decide
    · decide
  cases s with
  | None =>
    refine ⟨by simp [CountableSetSpecifier.ranges], by simp [CountableSetSpecifier.ranges],
      ?_, hconc⟩
    intro p
    simp [CountableSetSpecifier.ranges, CountableSetSpecifier.containsOne, coveredBy_nil]
  | One e =>
    simp only [cssElemsOk] at hok
    refine ⟨?_, by simp [CountableSetSpecifier.ranges], ?_, hconc⟩
    · intro r hr
      simp only [CountableSetSpecifier.ranges] at hr
      rcases List.mem_singleton.mp hr with rfl
      exact le_refl _
    · intro p
      simp only [CountableSetSpecifier.ranges]
      rw [coveredBy_singleton]
      simp only [CountableSetSpecifier.containsOne]
      constructor
      · intro ⟨h1, h2⟩
        have h1' : e ≤ p := h1
        have h2' : p ≤ e := h2
        have : p = e := le_antisymm h2' h1'
        subst this
        exact ⟨hok, by simp⟩
      · intro ⟨h1, h2⟩
        have : e = p := by simpa using h2
        subst this
        exact ⟨le_refl _, le_refl _⟩
  | Some es =>
    simp only [cssSorted] at hsorted
    simp only [cssElemsOk] at hok
    refine ⟨?_, ?_, ?_, hconc⟩
    · intro r hr
      simp only [CountableSetSpecifier.ranges] at hr
      obtain ⟨e, _, rfl⟩ := List.mem_map.mp hr
      exact le_refl _
    · simp only [CountableSetSpecifier.ranges]
      rw [List.pairwise_map]
      exact hsorted
    · intro p
      simp only [CountableSetSpecifier.ranges, CountableSetSpecifier.containsOne]
      constructor
      · rintro ⟨r, hr, h1, h2⟩
        obtain ⟨e, he, rfl⟩ := List.mem_map.mp hr
        have h1' : e ≤ p := h1
        have h2' : p ≤ e := h2
        have : p = e := le_antisymm h2' h1'
        subst this
        exact ⟨hok p he, by simpa using he⟩
      · rintro ⟨hp, hmem⟩
        have hmem' : p ∈ es := by simpa using hmem
        exact ⟨⟨p, p⟩, List.mem_map.mpr ⟨p, hmem', rfl⟩, le_refl _, le_refl _⟩
  | AllExcept es =>
    simp only [cssSorted] at hsorted
    simp only [cssElemsOk] at hok
    simp only [cssAllExceptNonempty] at hne
    cases es with
    | nil => exact absurd rfl hne
    | cons x xs =>
      have hshape : (CountableSetSpecifier.AllExcept (x :: xs)).ranges =
          CountableSetSpecifier.raeLoop (some portMinValue) (x :: xs) := rfl
      obtain ⟨hb, hpw, hcov⟩ := raeLoop_spec (x :: xs) portMinValue (le_refl _)
        (fun e he => ⟨(hok e he).1, (hok e he).2⟩) hsorted
      rw [hshape]
      refine ⟨fun r hr => (hb r hr).2.1, hpw, ?_, hconc⟩
      intro p
      rw [hcov p]
      simp only [CountableSetSpecifier.containsOne, portOk]
      constructor
      · intro ⟨h1, h2, h3⟩
        exact ⟨⟨h1, h2⟩, by simpa using h3⟩
      · intro ⟨⟨h1, h2⟩, h3⟩
        exact ⟨h1, h2, by simpa using h3⟩
  | All =>
    refine ⟨?_, by simp [CountableSetSpecifier.ranges], ?_, hconc⟩
    · intro r hr
      simp only [CountableSetSpecifier.ranges] at hr
      rcases List.mem_singleton.mp hr with rfl
      show portMinValue ≤ portMaxValue
      decide
    · intro p
      simp only [CountableSetSpecifier.ranges]
      rw [coveredBy_singleton]
      simp only [CountableSetSpecifier.containsOne, portOk]
      constructor
      · intro ⟨h1, h2⟩
        exact ⟨⟨h1, h2⟩, trivial⟩
      · intro ⟨⟨h1, h2⟩, _⟩
        exact ⟨h1, h2⟩
  
/-- Witness for C5 at `AllExcept [7]`. -/
theorem c5_witness :
    (∀ r ∈ (CountableSetSpecifier.AllExcept [7]).ranges, r.start ≤ r.stop) ∧
    (CountableSetSpecifier.AllExcept [7]).ranges.Pairwise (fun a b => a.stop < b.start) ∧
    (∀ p, coveredBy (CountableSetSpecifier.AllExcept [7]).ranges p ↔
      (portOk p ∧ (CountableSetSpecifier.AllExcept [7]).containsOne p = true)) ∧
    ((CountableSetSpecifier.All.remove 1).bind (fun t => t.remove 65535) =
        some (.AllExcept [1, 65535]) ∧
      (CountableSetSpecifier.AllExcept [1, 65535]).ranges = [⟨2, 65534⟩]) :=
  c5_ranges_spec (.AllExcept [7]) (by decide) (by decide) (by decide)

/-! ## Claim C7 -/

/-- The `Some` element list is non-empty (`SetSpecifier`). -/
def SetSpecifier.someNonempty {T : Type} : SetSpecifier T → Prop
  | .Some es => es ≠ []
  | _ => True

/-- The `Some` element list is non-empty (`CountableSetSpecifier`). -/
def cssSomeNonempty : CountableSetSpecifier Nat → Prop
  | .Some es => es ≠ []
  | _ => True

/-- The `AllExcept` list excludes fewer than `value_count` elements, i.e.
the set is non-empty. -/
def cssProper : CountableSetSpecifier Nat → Prop
  | .AllExcept es => es.length < portValueCount
  | _ => True

instance (s : CountableSetSpecifier Nat) : Decidable (cssSomeNonempty s) := by
  unfold cssSomeNonempty
  cases s <;> infer_instance

instance (s : CountableSetSpecifier Nat) : Decidable (cssProper s) := by
  unfold cssProper
  cases s <;> infer_instance

instance {T : Type} [DecidableEq T] (s : SetSpecifier T) : Decidable s.someNonempty := by
  unfold SetSpecifier.someNonempty
  cases s <;> infer_instance

/-- Counterexample to C7 as stated: `Some []` vs `All` on `SetSpecifier`
is asymmetric. -/
theorem c7_counterexample :
    SetSpecifier.intersects (SetSpecifier.Some ([] : List Nat)) SetSpecifier.All = false ∧
    SetSpecifier.intersects SetSpecifier.All (SetSpecifier.Some ([] : List Nat)) = true := by
  decide

/-- C7 (amended: `Some` lists must be non-empty, and `AllExcept` lists
must exclude fewer than `value_count` ports): intersection is symmetric
for both set specifier types. -/
theorem c7_intersects_symm :
    (∀ (T : Type) [DecidableEq T] (a b : SetSpecifier T),
      a.someNonempty → b.someNonempty → a.intersects b = b.intersects a) ∧
    (∀ a b : CountableSetSpecifier Nat,
      cssSomeNonempty a → cssSomeNonempty b → cssProper a → cssProper b →
      a.intersects b = b.intersects a) := by
  constructor
  · intro T _ a b ha hb
    cases a <;> cases b <;>
      simp only [SetSpecifier.someNonempty] at ha hb <;>
      apply Bool.eq_iff_iff.mpr <;>
      simp only [SetSpecifier.intersects, SetSpecifier.containsOne,
        List.any_eq_true, beq_iff_eq, decide_eq_true_eq, exists_eq_right'] <;>
      try tauto
    all_goals
      first
        | (rw [iff_true]
           obtain ⟨x, hx⟩ := List.exists_mem_of_ne_nil _ ha
           exact ⟨x, hx, trivial⟩)
        | (rw [true_iff]
           obtain ⟨x, hx⟩ := List.exists_mem_of_ne_nil _ hb
           exact ⟨x, hx, trivial⟩)
  · intro a b ha hb hpa hpb
    cases a <;> cases b <;>
      simp only [cssSomeNonempty] at ha hb <;>
      simp only [cssProper] at hpa hpb <;>
      apply Bool.eq_iff_iff.mpr <;>
      simp only [CountableSetSpecifier.intersects, CountableSetSpecifier.containsOne,
        List.any_eq_true, beq_iff_eq, decide_eq_true_eq, Bool.not_eq_true',
        decide_eq_false_iff_not, exists_eq_right'] <;>
      try tauto
    all_goals
      first
        | (rw [iff_true]
           obtain ⟨x, hx⟩ := List.exists_mem_of_ne_nil _ ha
           exact ⟨x, hx, trivial⟩)
        | (rw [true_iff]
           obtain ⟨x, hx⟩ := List.exists_mem_of_ne_nil _ hb
           exact ⟨x, hx, trivial⟩)

/-- Witness for C7. -/
theorem c7_witness :
    SetSpecifier.intersects (SetSpecifier.One (3 : Nat)) (SetSpecifier.Some [3, 5]) =
      SetSpecifier.intersects (SetSpecifier.Some [3, 5]) (SetSpecifier.One 3) ∧
    CountableSetSpecifier.intersects (.AllExcept [2]) .All =
      CountableSetSpecifier.intersects .All (.AllExcept [2]) :=
  ⟨c7_intersects_symm.1 Nat (.One 3) (.Some [3, 5]) (by decide) (by decide),
   c7_intersects_symm.2 (.AllExcept [2]) .All (by decide) (by decide)
     (by decide) (by decide)⟩

/-! ## Claim C10 -/

/-- A strictly ascending list of ports misses some port exactly when it is
shorter than the number of ports. -/
theorem exists_port_not_mem_iff {l : List Nat} (hs : l.Pairwise (· < ·))
    (hok : ∀ e ∈ l, portOk e) :
    (∃ x, portOk x ∧ x ∉ l) ↔ l.length < portValueCount := by
  have hnodup : l.Nodup := hs.imp (fun hlt => Nat.ne_of_lt hlt)
  have hcardl : l.toFinset.card = l.length := List.toFinset_card_of_nodup hnodup
  constructor
  · rintro ⟨x, hx, hnx⟩
    have hsub : l.toFinset ⊆ Finset.Icc 1 65535 := by
      intro y hy
      rw [List.mem_toFinset] at hy
      rw [Finset.mem_Icc]
      exact hok y hy
    have hssub : l.toFinset ⊂ Finset.Icc 1 65535 := by
      refine ⟨hsub, fun hsup => ?_⟩
      exact hnx (List.mem_toFinset.mp (hsup (Finset.mem_Icc.mpr hx)))
    have := Finset.card_lt_card hssub
    rw [hcardl, Nat.card_Icc] at this
    unfold portValueCount
    omega
  · intro hlen
    by_contra h
    push_neg at h
    have hsub : Finset.Icc 1 65535 ⊆ l.toFinset := by
      intro x hx
      rw [List.mem_toFinset]
      rw [Finset.mem_Icc] at hx
      exact h x hx
    have hcard := Finset.card_le_card hsub
    rw [hcardl, Nat.card_Icc] at hcard
    unfold portValueCount at hlen
    omega

/-- Counterexample to C10 as stated: `AllExcept []` does not intersect
itself according to the code (equal exclusion lists), yet port 1 is in
both sets. -/
theorem c10_counterexample :
    CountableSetSpecifier.intersects (.AllExcept ([] : List Nat)) (.AllExcept []) = false ∧
    (CountableSetSpecifier.AllExcept ([] : List Nat)).containsOne 1 = true := by
  decide

/-- C10 (amended: `Some` lists must be non-empty, `AllExcept` lists must
exclude fewer than `value_count` ports, and the `AllExcept`/`AllExcept`
combination — where the code only compares the exclusion lists — is
excluded): `intersects` returns true iff the two port sets share an
element. -/
theorem c10_intersects_iff (a b : CountableSetSpecifier Nat)
    (hsa : cssSorted a) (hsb : cssSorted b)
    (hoa : cssElemsOk a) (hob : cssElemsOk b)
    (hna : cssSomeNonempty a) (hnb : cssSomeNonempty b)
    (hpa : cssProper a) (hpb : cssProper b)
    (hnotboth : ∀ xs ys, ¬ (a = .AllExcept xs ∧ b = .AllExcept ys)) :
    a.intersects b = true ↔
      ∃ x, portOk x ∧ a.containsOne x = true ∧ b.containsOne x = true := by
  cases a with
  | None =>
    simp [CountableSetSpecifier.intersects, CountableSetSpecifier.containsOne]
  | One e =>
    have hoe : portOk e := hoa
    show b.containsOne e = true ↔ _
    constructor
    · intro h
      exact ⟨e, hoe, by simp [CountableSetSpecifier.containsOne], h⟩
    · rintro ⟨x, hx, hax, hbx⟩
      have hex : e = x := by
        simpa [CountableSetSpecifier.containsOne] using hax
      rw [hex]
      exact hbx
  | Some es =>
    simp only [cssElemsOk] at hoa
    show es.any (fun e => b.containsOne e) = true ↔ _
    rw [List.any_eq_true]
    constructor
    · rintro ⟨x, hx, hbx⟩
      exact ⟨x, hoa x hx, by simp [CountableSetSpecifier.containsOne, hx], hbx⟩
    · rintro ⟨x, hx, hax, hbx⟩
      have hmem : x ∈ es := by
        simpa [CountableSetSpecifier.containsOne] using hax
      exact ⟨x, hmem, hbx⟩
  | AllExcept xs =>
    simp only [cssSorted] at hsa
    simp only [cssElemsOk] at hoa
    cases b with
    | None =>
      simp [CountableSetSpecifier.intersects, CountableSetSpecifier.containsOne]
    | One f =>
      have hof : portOk f := hob
      show (!decide (f ∈ xs)) = true ↔ _
      constructor
      · intro h
        exact ⟨f, hof, by simpa [CountableSetSpecifier.containsOne] using h,
          by simp [CountableSetSpecifier.containsOne]⟩
      · rintro ⟨x, hx, hax, hbx⟩
        have hfx : f = x := by
          simpa [CountableSetSpecifier.containsOne] using hbx
        rw [hfx]
        simpa [CountableSetSpecifier.containsOne] using hax
    | Some fs =>
      simp only [cssElemsOk] at hob
      show fs.any (fun f => !decide (f ∈ xs)) = true ↔ _
      rw [List.any_eq_true]
      constructor
      · rintro ⟨x, hx, hnx⟩
        exact ⟨x, hob x hx, by simpa [CountableSetSpecifier.containsOne] using hnx,
          by simp [CountableSetSpecifier.containsOne, hx]⟩
      · rintro ⟨x, hx, hax, hbx⟩
        have hmem : x ∈ fs := by
          simpa [CountableSetSpecifier.containsOne] using hbx
        exact ⟨x, hmem, by simpa [CountableSetSpecifier.containsOne] using hax⟩
    | AllExcept ys => exact absurd ⟨rfl, rfl⟩ (hnotboth xs ys)
    | All =>
      simp only [cssProper] at hpa
      show decide (xs.length < portValueCount) = true ↔ _
      rw [decide_eq_true_eq]
      constructor
      · intro h
        obtain ⟨x, hx, hnx⟩ := (exists_port_not_mem_iff hsa hoa).mpr h
        exact ⟨x, hx, by simp [CountableSetSpecifier.containsOne, hnx],
          by simp [CountableSetSpecifier.containsOne]⟩
      · rintro ⟨x, hx, hax, _⟩
        apply (exists_port_not_mem_iff hsa hoa).mp
        exact ⟨x, hx, by simpa [CountableSetSpecifier.containsOne] using hax⟩
  | All =>
    cases b with
    | None =>
      simp [CountableSetSpecifier.intersects, CountableSetSpecifier.containsOne]
    | One f =>
      have hof : portOk f := hob
      constructor
      · intro _
        exact ⟨f, hof, by simp [CountableSetSpecifier.containsOne],
          by simp [CountableSetSpecifier.containsOne]⟩
      · intro _
        rfl
    | Some fs =>
      simp only [cssSomeNonempty] at hnb
      simp only [cssElemsOk] at hob
      constructor
      · intro _
        obtain ⟨f, hf⟩ := List.exists_mem_of_ne_nil fs hnb
        exact ⟨f, hob f hf, by simp [CountableSetSpecifier.containsOne],
          by simp [CountableSetSpecifier.containsOne, hf]⟩
      · intro _
        rfl
    | AllExcept ys =>
      simp only [cssSorted] at hsb
      simp only [cssElemsOk] at hob
      simp only [cssProper] at hpb
      constructor
      · intro _
        obtain ⟨x, hx, hnx⟩ := (exists_port_not_mem_iff hsb hob).mpr hpb
        exact ⟨x, hx, by simp [CountableSetSpecifier.containsOne],
          by simp [CountableSetSpecifier.containsOne, hnx]⟩
      · intro _
        rfl
    | All =>
      constructor
      · intro _
        exact ⟨1, by decide, by simp [CountableSetSpecifier.containsOne],
          by simp [CountableSetSpecifier.containsOne]⟩
      · intro _
        rfl

/-- Witness for C10 at `AllExcept [9]` vs `All`. -/
theorem c10_witness :
    CountableSetSpecifier.intersects (.AllExcept [9]) .All = true ↔
      ∃ x, portOk x ∧ (CountableSetSpecifier.AllExcept [9]).containsOne x = true ∧
        (CountableSetSpecifier.All : CountableSetSpecifier Nat).containsOne x = true :=
  c10_intersects_iff (.AllExcept [9]) .All (by decide) (by decide) (by decide)
    (by decide) (by decide) (by decide) (by decide) (by decide)
    (fun xs ys h => by cases h.2)

/-! ## Claim C8 -/

/-- Joining onto an absolute base path yields an absolute path. -/
theorem isAbsolutePath_pathJoin {m b : String} (hm : isAbsolutePath m = true) :
    isAbsolutePath (pathJoin m b) = true := by
  obtain ⟨ld⟩ := m
  cases ld with
  | nil => simp [isAbsolutePath] at hm
  | cons c t =>
    have hc : (c == '/') = true := hm
    simp only [pathJoin]
    split_ifs <;> first | contradiction | exact hc

/-- The join step only returns absolute paths when every fd metadata path
of the syscall is absolute. -/
theorem resolvePathJoined_absolute {path : String} {relfd : Option Nat}
    {sc : Syscall} {j : String}
    (hmeta : ∀ arg ∈ sc.args, ∀ m, arg.metadataOf = some m → isAbsolutePath m = true)
    (hj : resolvePathJoined path relfd sc = some j) :
    isAbsolutePath j = true := by
  unfold resolvePathJoined at hj
  by_cases hrel : isRelativePath path = true
  · rw [if_pos hrel] at hj
    cases hm : (relfd.bind (fun idx => sc.args.get? idx)).bind Expression.metadataOf with
    | none =>
      simp only [hm] at hj
      cases hj
    | some m =>
      simp only [hm] at hj
      have hmabs : isAbsolutePath m = true := by
        cases relfd with
        | none => cases hm
        | some idx =>
          have hm' : (sc.args.get? idx).bind Expression.metadataOf = some m := hm
          cases harg : sc.args.get? idx with
          | none => rw [harg] at hm'; cases hm'
          | some arg =>
            rw [harg] at hm'
            exact hmeta arg (List.get?_mem harg) m hm'
      by_cases hps : isFdPseudoPath m = true
      · rw [if_pos hps] at hj; cases hj
      · rw [if_neg hps] at hj
        injection hj with hj
        subst hj
        exact isAbsolutePath_pathJoin hmabs
  · rw [if_neg hrel] at hj
    injection hj with hj
    subst hj
    unfold isRelativePath at hrel
    simpa using hrel

/-- A successfully resolved path is absolute, provided canonicalization
only returns absolute paths and every fd metadata path of the syscall is
absolute. -/
theorem resolvePath_absolute {canon : String → Option String} {path : String}
    {relfd : Option Nat} {sc : Syscall} {p : String}
    (hcanon : ∀ q r, canon q = some r → isAbsolutePath r = true)
    (hmeta : ∀ arg ∈ sc.args, ∀ m, arg.metadataOf = some m → isAbsolutePath m = true)
    (hres : resolvePath canon path relfd sc = some p) :
    isAbsolutePath p = true := by
  unfold resolvePath at hres
  cases hj : resolvePathJoined path relfd sc with
  | none => rw [hj] at hres; cases hres
  | some j =>
    rw [hj] at hres
    have hjabs := resolvePathJoined_absolute hmeta hj
    simp only [Option.map_some'] at hres
    injection hres with hres
    subst hres
    cases hc : canon j with
    | none => exact hjabs
    | some r => exact hcanon _ r hc

/-- Counterexample to C8 as stated: an `openat` whose dirfd metadata is
the relative, non-pseudo path `foo` resolves `bar` to the relative path
`foo/bar` (canonicalization failing, as documented, leaves it unchanged),
and the summarizer emits `Read "foo/bar"` — a non-absolute path — instead
of eliding the action. -/
theorem c8_counterexample :
    summarize canonNone [.ok openatRelEx] =
      .ok [.Read "foo/bar", .Syscalls ["openat"]] ∧
    isAbsolutePath "foo/bar" = false := by
  constructor
  · rfl
  · rfl

/-- C8 (amended: canonicalization must return absolute paths — true of
`fs::canonicalize` — and every fd metadata path carried by the input must
be absolute, as the tracer produces them): every `Read`, `Write` and
`Create` action emitted by `summarize` carries an absolute path; paths
that do not resolve are elided, not errors. -/
theorem c8_absolute_paths (canon : String → Option String)
    (input : List (Except String Syscall)) (acts : List ProgramAction)
    (hcanon : ∀ q r, canon q = some r → isAbsolutePath r = true)
    (hmeta : ∀ sc : Syscall, Except.ok sc ∈ input →
      ∀ arg ∈ sc.args, ∀ m, arg.metadataOf = some m → isAbsolutePath m = true)
    (h : summarize canon input = .ok acts) :
    ∀ p, (ProgramAction.Read p ∈ acts ∨ ProgramAction.Write p ∈ acts ∨
        ProgramAction.Create p ∈ acts) →
      isAbsolutePath p = true := by
  unfold summarize at h
  split at h
  · cases h
  · rename_i st core hl
    injection h with h
    subst h
    intro p hp
    have hp' : ∃ a, a ∈ dedupAdj core ∧
        (a = ProgramAction.Read p ∨ a = .Write p ∨ a = .Create p) := by
      rcases hp with hp | hp | hp <;>
        rcases List.mem_append.mp hp with hp2 | hp2 <;>
        first
          | exact ⟨_, hp2, by tauto⟩
          | (rcases List.mem_singleton.mp hp2 with h; cases h)
    obtain ⟨a, ha, haeq⟩ := hp'
    obtain ⟨sc, hsc, hshape⟩ :=
      summarizeLoop_shape canon input initState st core hl a (mem_dedupAdj ha)
    obtain ⟨path, relfd, hres⟩ := hshape.2 p haeq
    exact resolvePath_absolute hcanon (hmeta sc hsc) hres

/-- Witness for C8 at the relative-rename input (absolute metadata). -/
theorem c8_witness : isAbsolutePath "/src/a" = true :=
  c8_absolute_paths canonNone [.ok renameatEx]
    [.Read "/src/a", .Write "/src/a", .Create "/dst/b", .Write "/dst/b",
      .Syscalls ["renameat"]]
    (fun _ _ h => by cases h)
    (fun sc hsc arg harg m hm => by
      rcases List.mem_singleton.mp hsc with h
      injection h with h
      subst h
      fin_cases harg <;>
        simp only [Expression.metadataOf] at hm <;>
        cases hm <;>
        decide)
    rfl "/src/a" (Or.inl (by decide))

/-! ## Claim C9 -/

/-- A `bind` whose `sin_port` is an `htons` macro around a non-literal
expression (here a named constant). -/
def bindNonLiteralEx : Syscall :=
  { pid := 1000, name := "bind",
    args := [
      .Integer ⟨.Literal 5, none⟩,
      .Struct [
        ("sa_family", .Integer ⟨.NamedConst "AF_INET", none⟩),
        ("sin_port", .Macro "htons" [.Integer ⟨.NamedConst "PORT_VAR", none⟩])],
      .Integer ⟨.Literal 16, none⟩],
    retVal := 0 }

/-- C9 is a code bug: the claim (and spec §7) says the summarizer never
panics on well-formed input, but `bind` with `htons(0)` hits the failing
`NonZeroU16` `unwrap` after the `as u16` cast, and `bind` with `htons`
around a non-literal hits the `todo!()`; both are modelled as the
`panicked` outcome, distinct from a normal `Ok`/`Err` return. -/
theorem c9_bind_panics :
    summarize canonNone [.ok bindZeroEx] =
      .error (.panicked "NonZeroU16 conversion of port 0") ∧
    summarize canonNone [.ok bindNonLiteralEx] =
      .error (.panicked "not yet implemented") := by
  constructor
  · rfl
  · rfl
